import Mathlib

/-!
# Verification of the hybrid retrieval core (`app/retrieve/hybrid_search.py`)

This file gives a shallow embedding of the rank-fusion and query-building
code of the restaurant-search repository and proves / refutes the frozen
claims about it.

Modelling conventions:
* Python dict entries that may be absent, `None`, or a value are modelled by
  `FieldVal α` (`absent` / `null` / `val a`), so that the Python distinction
  between `"k" in d` (key present, even with value `None`) and
  `d.get("k") is not None` is preserved.
* Python floats are modelled by `ℚ`; the RRF arithmetic is exact.
* Python dict objects are mutable and aliased; `reciprocal_rank_fusion`
  mutates the documents of its input lists in place.  We model the object
  store as a heap `Nat → Doc` and the input lists as lists of references
  into the heap, exactly mirroring which object each write lands on.
* The insertion-ordered Python dicts `rrf_scores` / `all_docs` are modelled
  by association lists that append fresh keys at the end and update existing
  keys in place.
* Python's `sorted(..., reverse=True)` is a stable descending sort; it is
  modelled by the (unique) stable descending insertion sort `sortDesc`.
-/

namespace RestaurantSearch

/-- A Python dict entry: missing key, key present with `None`, or a value. -/
inductive FieldVal (α : Type) where
  | absent
  | null
  | val (a : α)
deriving DecidableEq, Repr

/-- Python `"k" in d`: the key is present (possibly with value `None`). -/
def FieldVal.isPresent {α : Type} : FieldVal α → Bool
  | .absent => false
  | .null => true
  | .val _ => true

/-- Python `d.get("k")` compared against `None`: `some` only for a real value. -/
def FieldVal.getOpt {α : Type} : FieldVal α → Option α
  | .absent => none
  | .null => none
  | .val a => some a

/-- A retrieved document, with the fields read or written by
`reciprocal_rank_fusion`.  `score` is the `_score` put on the document by the
channel executors; the remaining fields are written during fusion. -/
structure Doc where
  place_id : Nat
  score : ℚ := 0
  bm25_rank : FieldVal Nat := .absent
  bm25_score : FieldVal ℚ := .absent
  vector_rank : FieldVal Nat := .absent
  vector_score : FieldVal ℚ := .absent
  rrf_score : FieldVal ℚ := .absent
  final_rank : FieldVal Nat := .absent
  search_method : FieldVal String := .absent
  /-- the `_rank` key written by `execute_vector_search` (never read). -/
  es_rank : FieldVal Nat := .absent
deriving DecidableEq, Repr

instance : Inhabited Doc := ⟨{ place_id := 0 }⟩

/-! ## Insertion-ordered association lists (Python `dict`) -/

/-- Lookup in an insertion-ordered association list. -/
def alookup {α : Type} : List (Nat × α) → Nat → Option α
  | [], _ => none
  | (q, v) :: rest, p => if q = p then some v else alookup rest p

/-- Update the value of an existing key, keeping its position. -/
def aupdate {α : Type} : List (Nat × α) → Nat → α → List (Nat × α)
  | [], _, _ => []
  | (q, v) :: rest, p, w => if q = p then (q, w) :: rest else (q, v) :: aupdate rest p w

/-- The keys of an association list, in insertion order. -/
def akeys {α : Type} (l : List (Nat × α)) : List Nat := l.map Prod.fst

/-! ## The heap of document objects -/

/-- Pointwise heap update (`Nat` references to mutable dicts). -/
def hupd (h : Nat → Doc) (r : Nat) (d : Doc) : Nat → Doc :=
  fun i => if i = r then d else h i

/-- `doc["bm25_rank"] = rank; doc["bm25_score"] = sc`. -/
def setBM25 (d : Doc) (rank : Nat) (sc : ℚ) : Doc :=
  { d with bm25_rank := .val rank, bm25_score := .val sc }

/-- `doc["bm25_rank"] = None; doc["bm25_score"] = None`. -/
def setBM25Null (d : Doc) : Doc :=
  { d with bm25_rank := .null, bm25_score := .null }

/-- `doc["vector_rank"] = rank; doc["vector_score"] = sc`. -/
def setVec (d : Doc) (rank : Nat) (sc : ℚ) : Doc :=
  { d with vector_rank := .val rank, vector_score := .val sc }

/-- The mutable state of `reciprocal_rank_fusion` while accumulating. -/
structure RRFState where
  heap : Nat → Doc
  rrf_scores : List (Nat × ℚ)
  all_docs : List (Nat × Nat)

/-- First loop of `reciprocal_rank_fusion`
(`for rank, doc in enumerate(bm25_results, 1)`). -/
def bm25_phase (k : ℚ) : Nat → List Nat → RRFState → RRFState
  | _, [], s => s
  | rank, ref :: rest, s =>
    let d := s.heap ref
    let place_id := d.place_id
    let rrf_score : ℚ := 1 / (k + rank)
    let sd :=
      if (alookup s.rrf_scores place_id).isSome then (s.rrf_scores, s.all_docs)
      else (s.rrf_scores ++ [(place_id, 0)], s.all_docs ++ [(place_id, ref)])
    let scores := aupdate sd.1 place_id ((alookup sd.1 place_id).getD 0 + rrf_score)
    let tref := (alookup sd.2 place_id).getD 0
    let heap := hupd s.heap tref (setBM25 (s.heap tref) rank d.score)
    bm25_phase k (rank + 1) rest ⟨heap, scores, sd.2⟩

/-- Second loop of `reciprocal_rank_fusion`
(`for rank, doc in enumerate(vector_results, 1)`); a fresh document also gets
`bm25_rank = None` and `bm25_score = None` written into it. -/
def vector_phase (k : ℚ) : Nat → List Nat → RRFState → RRFState
  | _, [], s => s
  | rank, ref :: rest, s =>
    let d := s.heap ref
    let place_id := d.place_id
    let rrf_score : ℚ := 1 / (k + rank)
    let sdh :=
      if (alookup s.rrf_scores place_id).isSome then (s.rrf_scores, s.all_docs, s.heap)
      else (s.rrf_scores ++ [(place_id, 0)], s.all_docs ++ [(place_id, ref)],
        hupd s.heap ref (setBM25Null (s.heap ref)))
    let scores := aupdate sdh.1 place_id ((alookup sdh.1 place_id).getD 0 + rrf_score)
    let tref := (alookup sdh.2.1 place_id).getD 0
    let heap := hupd sdh.2.2 tref (setVec (sdh.2.2 tref) rank d.score)
    vector_phase k (rank + 1) rest ⟨heap, scores, sdh.2.1⟩

/-! ## Stable descending sort (Python `sorted(..., reverse=True)`) -/

/-- Insert before the first element whose score is `≤` ours (ties keep the
existing element first only when it came earlier in the input, which is what
the recursion below arranges). -/
def insertDesc (x : Nat × ℚ) : List (Nat × ℚ) → List (Nat × ℚ)
  | [] => [x]
  | y :: ys => if x.2 ≥ y.2 then x :: y :: ys else y :: insertDesc x ys

/-- Stable descending insertion sort on the accumulated `(place_id, score)`
pairs; extensionally equal to Python's stable `sorted(..., reverse=True)`. -/
def sortDesc : List (Nat × ℚ) → List (Nat × ℚ)
  | [] => []
  | x :: xs => insertDesc x (sortDesc xs)

/-- The provenance tag computed at the end of `reciprocal_rank_fusion`:
`if "bm25_rank" in doc and doc.get("vector_rank") is not None`. -/
def search_method_of (d : Doc) : String :=
  if d.bm25_rank.isPresent && d.vector_rank.getOpt.isSome then "hybrid"
  else if d.bm25_rank.isPresent then "bm25_only"
  else "vector_only"

/-- Final loop of `reciprocal_rank_fusion`: build the output list from the
sorted `(place_id, rrf_score)` pairs, copying each `all_docs` object. -/
def buildFinal (heap : Nat → Doc) (docs : List (Nat × Nat)) :
    Nat → List (Nat × ℚ) → List Doc
  | _, [] => []
  | n, (place_id, sc) :: rest =>
    let doc0 := heap ((alookup docs place_id).getD 0)
    let doc1 := { doc0 with rrf_score := FieldVal.val sc, final_rank := FieldVal.val (n + 1) }
    let doc2 := { doc1 with search_method := FieldVal.val (search_method_of doc1) }
    doc2 :: buildFinal heap docs (n + 1) rest

/-- Accumulation state after both loops of `reciprocal_rank_fusion`. -/
def rrf_state (heap : Nat → Doc) (bm25_refs vector_refs : List Nat) (k : ℚ) : RRFState :=
  vector_phase k 1 vector_refs (bm25_phase k 1 bm25_refs ⟨heap, [], []⟩)

/-- `reciprocal_rank_fusion(bm25_results, vector_results, k)` over a heap of
document objects; returns the final heap (the input objects are mutated) and
the fused output list. -/
def reciprocal_rank_fusion (heap : Nat → Doc) (bm25_refs vector_refs : List Nat)
    (k : ℚ) : (Nat → Doc) × List Doc :=
  let s := rrf_state heap bm25_refs vector_refs k
  (s.heap, buildFinal s.heap s.all_docs 0 (sortDesc s.rrf_scores))

/-- Heap layout for a call on two concrete lists: the keyword documents live
at references `0, …, |b|-1` and the vector documents at `|b|, …`. -/
def layout_heap (b v : List Doc) : Nat → Doc :=
  fun i => (b ++ v).getD i default

/-- References of the keyword-list documents. -/
def b_refs (b : List Doc) : List Nat := List.range b.length

/-- References of the vector-list documents. -/
def v_refs (b v : List Doc) : List Nat :=
  (List.range v.length).map (fun j => b.length + j)

/-- The accumulation state of `reciprocal_rank_fusion(b, v, k)`. -/
def rrf_run_state (b v : List Doc) (k : ℚ) : RRFState :=
  rrf_state (layout_heap b v) (b_refs b) (v_refs b v) k

/-- `reciprocal_rank_fusion(b, v, k)` on two concrete lists: final heap
(mutated input objects) and fused output. -/
def rrf_run (b v : List Doc) (k : ℚ) : (Nat → Doc) × List Doc :=
  reciprocal_rank_fusion (layout_heap b v) (b_refs b) (v_refs b v) k

/-- 0-based position of the first occurrence of `p`. -/
def posOf (p : Nat) : List Nat → Option Nat
  | [] => none
  | q :: rest => if q = p then some 0 else (posOf p rest).map (· + 1)

/-- 1-based rank of the first document with the given `place_id`. -/
def rankOf (p : Nat) (l : List Doc) : Option Nat :=
  (posOf p (l.map Doc.place_id)).map (· + 1)

/-- The RRF contribution of one channel list: `1/(k+r)` at rank `r`, `0` if
the document is absent from the list. -/
def contrib (k : ℚ) (p : Nat) (l : List Doc) : ℚ :=
  match rankOf p l with
  | some r => 1 / (k + r)
  | none => 0

/-! ### Pure projection of the accumulation loops

Both accumulation loops update `rrf_scores` / `all_docs` in exactly the same
way, reading only `place_id` from the current document.  `accFold` is that
common scores/docs transformation, used to reason about the phases. -/

/-- One accumulation step on `(rrf_scores, all_docs)` for a document with the
given `place_id` held at reference `ref`, seen at 1-based `rank`. -/
def accStep (k : ℚ) (rank : Nat) (place_id ref : Nat)
    (sc : List (Nat × ℚ)) (docs : List (Nat × Nat)) :
    List (Nat × ℚ) × List (Nat × Nat) :=
  let sd :=
    if (alookup sc place_id).isSome then (sc, docs)
    else (sc ++ [(place_id, 0)], docs ++ [(place_id, ref)])
  (aupdate sd.1 place_id ((alookup sd.1 place_id).getD 0 + 1 / (k + rank)), sd.2)

/-- The scores/docs transformation of a whole accumulation loop over
`(place_id, ref)` pairs starting at the given rank. -/
def accFold (k : ℚ) : Nat → List (Nat × Nat) →
    List (Nat × ℚ) × List (Nat × Nat) → List (Nat × ℚ) × List (Nat × Nat)
  | _, [], acc => acc
  | rank, (place_id, ref) :: rest, acc =>
    accFold k (rank + 1) rest (accStep k rank place_id ref acc.1 acc.2)

/-- One iteration of the first accumulation loop, as a state transformer
(definitionally equal to the step taken by `bm25_phase`). -/
def bm25_step (k : ℚ) (rank ref : Nat) (s : RRFState) : RRFState :=
  let d := s.heap ref
  let place_id := d.place_id
  let acc := accStep k rank place_id ref s.rrf_scores s.all_docs
  let tref := (alookup acc.2 place_id).getD 0
  ⟨hupd s.heap tref (setBM25 (s.heap tref) rank d.score), acc.1, acc.2⟩

/-- One iteration of the second accumulation loop, as a state transformer
(equal to the step taken by `vector_phase`). -/
def vector_step (k : ℚ) (rank ref : Nat) (s : RRFState) : RRFState :=
  let d := s.heap ref
  let place_id := d.place_id
  let heap0 := if (alookup s.rrf_scores place_id).isSome then s.heap
    else hupd s.heap ref (setBM25Null (s.heap ref))
  let acc := accStep k rank place_id ref s.rrf_scores s.all_docs
  let tref := (alookup acc.2 place_id).getD 0
  ⟨hupd heap0 tref (setVec (heap0 tref) rank d.score), acc.1, acc.2⟩

/-! ## Query building (`build_*_bm25_query`, `build_vector_query`) -/

/-- The extracted entities (`entities.get(...)`, a missing key behaving as
the empty list). -/
structure Entities where
  title : List String := []
  category : List String := []
  convenience : List String := []
  atmosphere : List String := []
  occasion : List String := []
  menu : List String := []
  location : List String := []
deriving DecidableEq, Repr

/-- One result of the `coordinates` index lookup (`{name, pin.coordinate}`). -/
structure CoordDoc where
  name : String := ""
  lat : ℚ := 0
  lon : ℚ := 0
deriving DecidableEq, Repr

instance : Inhabited CoordDoc := ⟨{}⟩

/-- A leaf clause of an Elasticsearch boolean query body. -/
inductive Clause where
  | multi_match (query : String) (fields : List String) (boost : ℚ) (fuzziness : String)
  | match_field (fieldName : String) (query : String) (boost : Option ℚ)
  | nested_review_food (query : String) (boost : ℚ)
  | geo_distance (distance : String) (lat : ℚ) (lon : ℚ)
deriving DecidableEq, Repr

/-- The `final_bool_query` dict: keys are present or absent. -/
structure BoolQuery where
  must : Option (List Clause) := none
  should : Option (List Clause) := none
  minimum_should_match : Option Nat := none
  filter : Option (List Clause) := none
deriving DecidableEq, Repr

/-- The top-level `query` value of a built keyword body. -/
inductive ESQuery where
  | must_not_match_all
  | match_all
  | bool_query (b : BoolQuery)
deriving DecidableEq, Repr

/-- A full keyword query body (`size`, `_source.includes`, `query`). -/
structure QueryBody where
  size : Nat
  source_includes : List String
  query : ESQuery
deriving DecidableEq, Repr

/-- `_source.includes` used by every builder. -/
def source_fields : List String :=
  ["place_id", "title", "summary", "category", "address", "convenience",
   "atmosphere", "occasion", "pin"]

/-- The weighted fields of the general search `multi_match`. -/
def search_fields : List String :=
  ["title^2.0", "category^1.5", "review_food^1.5", "convenience^1.2",
   "atmosphere^1.2", "occasion^1.2", "features^1.2", "address^0.8"]

/-- `build_location_filters(entities)`; the coordinate lookup
(`search_coordinates_index`) is an external collaborator passed as `coords`. -/
def build_location_filters (coords : String → List CoordDoc) (entities : Entities) :
    List Clause :=
  entities.location.foldl
    (fun filters location =>
      let rs := coords location
      if rs ≠ [] then
        if rs.length = 1 ∨ (rs.headD default).name.trim = location.trim then
          filters ++ [Clause.geo_distance "3km" (rs.headD default).lat (rs.headD default).lon]
        else
          filters ++ [Clause.match_field "address" location none]
      else filters)
    []

/-- `build_general_search_bm25_query(query_text, entities, size)`. -/
def build_general_search_bm25_query (coords : String → List CoordDoc)
    (query_text : String) (entities : Entities) (size : Nat) : QueryBody :=
  let should_clauses : List Clause :=
    (if query_text ≠ "" then
      [Clause.multi_match query_text search_fields (1 / 2) "AUTO"] else [])
    ++ entities.title.map (fun t => Clause.match_field "title" t (some 1))
    ++ (if entities.category ≠ [] then
      [Clause.match_field "category" (String.intercalate "," entities.category) (some 2)] else [])
    ++ (if entities.convenience ≠ [] then
      [Clause.match_field "convenience" (String.intercalate "," entities.convenience)
        (some (6 / 5))] else [])
    ++ (if entities.atmosphere ≠ [] then
      [Clause.match_field "atmosphere" (String.intercalate "," entities.atmosphere)
        (some 1)] else [])
    ++ (if entities.occasion ≠ [] then
      [Clause.match_field "occasion" (String.intercalate "," entities.occasion)
        (some 1)] else [])
    ++ (if entities.menu ≠ [] then
      [Clause.nested_review_food (String.intercalate "," entities.menu) (6 / 5),
       Clause.match_field "review_food" (String.intercalate "," entities.menu)
         (some (6 / 5))] else [])
  let bq0 : BoolQuery := {}
  let bq1 := if should_clauses ≠ [] then
    { bq0 with should := some should_clauses, minimum_should_match := some 1 } else bq0
  let location_filters := build_location_filters coords entities
  let bq2 := if location_filters ≠ [] then
    { bq1 with filter := some location_filters } else bq1
  let query := if bq2 = ({} : BoolQuery) then ESQuery.must_not_match_all
    else ESQuery.bool_query bq2
  { size := size, source_includes := source_fields, query := query }

/-- Python `needle in hay` on strings, lower-cased by the caller. -/
def strContains (needle hay : String) : Bool :=
  decide (needle.toList <:+: hay.toList)

/-- `build_compare_search_bm25_query(query_text, entities, size)`; note the
`match_all` fallback when no clause is produced. -/
def build_compare_search_bm25_query (_query_text : String) (entities : Entities)
    (size : Nat) : QueryBody :=
  let should_clauses : List Clause :=
    entities.title.map (fun t => Clause.match_field "title" t (some 5))
    ++ (entities.location.filter (fun location =>
        !(entities.title.any (fun t => strContains location.toLower t.toLower)))).map
      (fun location => Clause.match_field "address" location (some 1))
    ++ (if entities.category ≠ [] then
      [Clause.match_field "category" (String.intercalate "," entities.category)
        (some (1 / 2))] else [])
  let bq0 : BoolQuery := {}
  let bq1 := if should_clauses ≠ [] then
    { bq0 with should := some should_clauses, minimum_should_match := some 1 } else bq0
  let query := if bq1 = ({} : BoolQuery) then ESQuery.match_all
    else ESQuery.bool_query bq1
  { size := size, source_includes := source_fields, query := query }

/-- `build_information_search_bm25_query(query_text, entities, size)`. -/
def build_information_search_bm25_query (coords : String → List CoordDoc)
    (_query_text : String) (entities : Entities) (size : Nat) : QueryBody :=
  let must_clauses : List Clause :=
    entities.title.map (fun t => Clause.match_field "title" t none)
  let should_clauses : List Clause :=
    entities.location.map (fun location => Clause.match_field "address" location (some 1))
    ++ (if entities.convenience ≠ [] then
      [Clause.match_field "convenience" (String.intercalate "," entities.convenience)
        (some 1)] else [])
  let bq0 : BoolQuery := {}
  let bq1 := if must_clauses ≠ [] then { bq0 with must := some must_clauses } else bq0
  let bq2 := if should_clauses ≠ [] then { bq1 with should := some should_clauses } else bq1
  let location_filters := build_location_filters coords entities
  let bq3 := if location_filters ≠ [] then
    (if bq2.filter = none then { bq2 with filter := some location_filters }
     else { bq2 with filter := some ((bq2.filter.getD []) ++ location_filters) })
    else bq2
  let query := if bq3 = ({} : BoolQuery) then ESQuery.must_not_match_all
    else ESQuery.bool_query bq3
  { size := size, source_includes := source_fields, query := query }

/-- `build_bm25_query(query_text, entities, intent, size)`: dispatch on the
intent string, defaulting to the general search builder. -/
def build_bm25_query (coords : String → List CoordDoc) (query_text : String)
    (entities : Entities) (intent : String) (size : Nat) : QueryBody :=
  if intent = "search" then build_general_search_bm25_query coords query_text entities size
  else if intent = "compare" then build_compare_search_bm25_query query_text entities size
  else if intent = "information" then
    build_information_search_bm25_query coords query_text entities size
  else build_general_search_bm25_query coords query_text entities size

/-- A vector (knn) query body. -/
structure VectorQueryBody where
  size : Nat
  source_includes : List String
  knn_field : String
  query_vector : List ℚ
  k : Nat
  num_candidates : Nat
  filter : Option (List Clause) := none
deriving DecidableEq, Repr

/-- `build_vector_query(query_embedding, entities, size)`. -/
def build_vector_query (coords : String → List CoordDoc) (query_embedding : List ℚ)
    (entities : Entities) (size : Nat) : VectorQueryBody :=
  let base : VectorQueryBody :=
    { size := size, source_includes := source_fields, knn_field := "embedding",
      query_vector := query_embedding, k := size, num_candidates := size * 4 }
  let location_filters := build_location_filters coords entities
  if location_filters ≠ [] then { base with filter := some location_filters } else base

/-! ## Channel executors (`execute_bm25_search`, `execute_vector_search`) -/

/-- One search hit: `_source` projected to the fusion-relevant fields, plus
`_score`. -/
structure Hit where
  source : Doc
  hit_score : ℚ
deriving DecidableEq, Repr

/-- Hit-list processing of `execute_bm25_search`: attach `_score` and a
1-based `bm25_rank` (`len(results) + 1`). -/
def process_bm25_hits : Nat → List Hit → List Doc
  | _, [] => []
  | n, h :: rest =>
    { h.source with score := h.hit_score, bm25_rank := .val (n + 1) }
      :: process_bm25_hits (n + 1) rest

/-- Hit-list processing of `execute_vector_search`: attach `_score` and a
1-based `_rank` (`len(results) + 1`). -/
def process_vector_hits : Nat → List Hit → List Doc
  | _, [] => []
  | n, h :: rest =>
    { h.source with score := h.hit_score, es_rank := .val (n + 1) }
      :: process_vector_hits (n + 1) rest

/-- `execute_bm25_search(query_text, entities, intent, size)`.  The document
store is the external collaborator `store`; everything inside the `try`
block (client creation, search, hit processing) is represented by its
outcome, and an exception is converted to the empty list.  The query is
built *outside* the `try` block but is pure and total. -/
def execute_bm25_search (store : QueryBody → Except String (List Hit))
    (coords : String → List CoordDoc) (query_text : String) (entities : Entities)
    (intent : String) (size : Nat) : Except String (List Doc) :=
  let bm25_query := build_bm25_query coords query_text entities intent size
  match store bm25_query with
  | .error _ => .ok []
  | .ok hits => .ok (process_bm25_hits 0 hits)

/-- `execute_vector_search(query_text, entities, intent, size)`.  The call
`get_query_embedding([query_text])` happens *before* the `try` block, so an
embedder failure propagates; a store failure inside the `try` block is
converted to the empty list. -/
def execute_vector_search (embedder : List String → Except String (List ℚ))
    (store : VectorQueryBody → Except String (List Hit))
    (coords : String → List CoordDoc) (query_text : String) (entities : Entities)
    (_intent : String) (size : Nat) : Except String (List Doc) :=
  match embedder [query_text] with
  | .error e => .error e
  | .ok query_embedding =>
    let vector_query := build_vector_query coords query_embedding entities size
    match store vector_query with
    | .error _ => .ok []
    | .ok hits => .ok (process_vector_hits 0 hits)

/-! ## Multi-query search and orchestration
(`execute_multiple_query_search`, `hybrid_search`)

The two channel executors are abstracted as functions
`query ↦ size ↦ result list` (their `entities`/`intent` arguments are fixed
for the whole call). -/

/-- Per-query retrieval + fusion (`query_results` accumulation): for every
sub-query, fetch both channels with the shared window
`max(20, size // len(queries) * 2)` and apply RRF when either is
non-empty. -/
def msearch_query_results (bm25ch vecch : String → Nat → List Doc)
    (queries : List String) (size : Nat) : List (String × List Doc) :=
  queries.filterMap (fun query =>
    let search_size := max 20 (size / queries.length * 2)
    let bm25_results := bm25ch query search_size
    let vector_results := vecch query search_size
    if bm25_results ≠ [] ∨ vector_results ≠ [] then
      some (query, (rrf_run bm25_results vector_results 60).2)
    else none)

/-- Quota pass: in sub-query order, append the top `results_per_query`
documents of each fused list (no de-duplication). -/
def msearch_quota (query_results : List (String × List Doc))
    (results_per_query : Nat) : List Doc :=
  query_results.foldl (fun final_results qr =>
    final_results ++ qr.2.take results_per_query) []

/-- Inner backfill loop over one fused list: stop when no slot remains, skip
documents already present (whole-dict equality), append otherwise. -/
def backfill_one (final_results : List Doc) (remaining_slots : Nat) :
    List Doc → List Doc × Nat
  | [] => (final_results, remaining_slots)
  | r :: rest =>
    if remaining_slots = 0 then (final_results, remaining_slots)
    else if r ∈ final_results then backfill_one final_results remaining_slots rest
    else backfill_one (final_results ++ [r]) (remaining_slots - 1) rest

/-- Backfill pass over all sub-query lists in order. -/
def msearch_backfill (final_results : List Doc) (remaining_slots : Nat) :
    List (String × List Doc) → List Doc
  | [] => final_results
  | qr :: rest =>
    let fr := backfill_one final_results remaining_slots qr.2
    msearch_backfill fr.1 fr.2 rest

/-- `execute_multiple_query_search(queries, entities, intent, size)`. -/
def execute_multiple_query_search (bm25ch vecch : String → Nat → List Doc)
    (queries : List String) (size : Nat) : List Doc :=
  if queries = [] then []
  else
    let query_results := msearch_query_results bm25ch vecch queries size
    if query_results = [] then []
    else
      let results_per_query := max 1 (size / query_results.length)
      let final_results := msearch_quota query_results results_per_query
      let final_results :=
        if size - final_results.length > 0 then
          msearch_backfill final_results (size - final_results.length) query_results
        else final_results
      final_results.take size

/-- `hybrid_search(queries, entities, intent, size)`: multi-query path for
more than one sub-query, otherwise single-query retrieval + RRF +
truncation. -/
def hybrid_search (bm25ch vecch : String → Nat → List Doc)
    (queries : List String) (size : Nat) : List Doc :=
  if queries = [] then []
  else if queries.length > 1 then
    execute_multiple_query_search bm25ch vecch queries size
  else
    let query_text := queries.headD ""
    let search_size := max 50 (size * 10)
    let bm25_results := bm25ch query_text search_size
    let vector_results := vecch query_text search_size
    if bm25_results = [] ∧ vector_results = [] then []
    else ((rrf_run bm25_results vector_results 60).2).take size

/-! ## Concrete example inputs used by witnesses and counterexamples -/

/-- Example keyword-channel document, `place_id` 1. -/
def exD1 : Doc := { place_id := 1, score := 5 }

/-- Example keyword-channel document, `place_id` 2. -/
def exD2 : Doc := { place_id := 2, score := 4 }

/-- Example keyword result list (ids 1, 2). -/
def exB : List Doc := [exD1, exD2]

/-- Example vector result list (ids 2, 3). -/
def exV : List Doc := [{ place_id := 2, score := 9 }, { place_id := 3, score := 8 }]

/-- Singleton keyword list (id 1). -/
def exB2 : List Doc := [exD1]

/-- Singleton vector list (id 3). -/
def exV2 : List Doc := [{ place_id := 3, score := 8 }]

/-- A keyword channel returning the same single document for every
sub-query. -/
def exBm1 : String → Nat → List Doc := fun _ _ => [exD1]

/-- A vector channel returning nothing. -/
def exVec0 : String → Nat → List Doc := fun _ _ => []

/-- A keyword channel productive only for sub-query "a". -/
def exBm2 : String → Nat → List Doc := fun q _ => if q = "a" then [exD1, exD2] else []

/-- A keyword channel that records the fetch window it was called with in
the `place_id` of its single result. -/
def exBm3 : String → Nat → List Doc := fun _ s => [{ place_id := s, score := 1 }]

/-! ## Association-list lemmas -/

theorem alookup_append_left {α : Type} {l₁ : List (Nat × α)} {p : Nat} {v : α}
    (l₂ : List (Nat × α)) (h : alookup l₁ p = some v) :
    alookup (l₁ ++ l₂) p = some v := by
  induction l₁ with
  | nil => simp [alookup] at h
  | cons hd tl ih =>
    obtain ⟨q, w⟩ := hd
    by_cases hq : q = p <;> simp_all [alookup]

theorem alookup_append_right {α : Type} {l₁ : List (Nat × α)} {p : Nat}
    (l₂ : List (Nat × α)) (h : alookup l₁ p = none) :
    alookup (l₁ ++ l₂) p = alookup l₂ p := by
  induction l₁ with
  | nil => simp
  | cons hd tl ih =>
    obtain ⟨q, w⟩ := hd
    by_cases hq : q = p <;> simp_all [alookup]

theorem alookup_aupdate_ne {α : Type} {l : List (Nat × α)} {p q : Nat} {w : α}
    (h : q ≠ p) : alookup (aupdate l p w) q = alookup l q := by
  induction l with
  | nil => simp [aupdate]
  | cons hd tl ih =>
    obtain ⟨a, b⟩ := hd
    by_cases ha : a = p
    · subst ha
      simp only [aupdate, if_pos rfl, alookup]
      rw [if_neg (fun hc => h hc.symm), if_neg (fun hc => h hc.symm)]
    · by_cases hb : a = q <;> simp_all [aupdate, alookup]

theorem alookup_aupdate_self {α : Type} {l : List (Nat × α)} {p : Nat} {w : α}
    (h : (alookup l p).isSome) : alookup (aupdate l p w) p = some w := by
  induction l with
  | nil => simp [alookup] at h
  | cons hd tl ih =>
    obtain ⟨a, b⟩ := hd
    by_cases ha : a = p <;> simp_all [aupdate, alookup]

theorem akeys_aupdate {α : Type} (l : List (Nat × α)) (p : Nat) (w : α) :
    akeys (aupdate l p w) = akeys l := by
  induction l with
  | nil => simp [aupdate]
  | cons hd tl ih =>
    obtain ⟨a, b⟩ := hd
    by_cases ha : a = p <;> simp_all [aupdate, akeys]

theorem alookup_isSome_iff {α : Type} {l : List (Nat × α)} {p : Nat} :
    (alookup l p).isSome ↔ p ∈ akeys l := by
  induction l with
  | nil => simp [alookup, akeys]
  | cons hd tl ih =>
    obtain ⟨a, b⟩ := hd
    simp only [alookup, akeys, List.map_cons, List.mem_cons]
    by_cases ha : a = p
    · subst ha; simp
    · rw [if_neg ha]
      rw [akeys] at ih
      rw [ih]
      constructor
      · exact fun h => Or.inr h
      · rintro (h | h)
        · exact absurd h.symm ha
        · exact h

theorem alookup_eq_none_iff {α : Type} {l : List (Nat × α)} {p : Nat} :
    alookup l p = none ↔ p ∉ akeys l := by
  rw [← alookup_isSome_iff, Option.isSome_iff_ne_none]
  tauto

theorem alookup_mem {α : Type} {l : List (Nat × α)} {p : Nat} {v : α}
    (h : alookup l p = some v) : (p, v) ∈ l := by
  induction l with
  | nil => simp [alookup] at h
  | cons hd tl ih =>
    obtain ⟨a, b⟩ := hd
    by_cases ha : a = p <;> simp_all [alookup]

/-! ## `posOf` lemmas -/

theorem posOf_eq_none_iff {p : Nat} {l : List Nat} : posOf p l = none ↔ p ∉ l := by
  induction l with
  | nil => simp [posOf]
  | cons q rest ih =>
    simp only [posOf, List.mem_cons]
    by_cases hq : q = p
    · subst hq; simp
    · rw [if_neg hq]
      simp only [Option.map_eq_none', ih]
      constructor
      · intro h
        rintro (hc | hc)
        · exact hq hc.symm
        · exact h hc
      · intro h hc
        exact h (Or.inr hc)

/-! ## Accumulation-step and accumulation-fold lemmas -/

theorem alookup_append_single_ne {α : Type} {sc : List (Nat × α)} {q pid : Nat}
    {x : α} (h : q ≠ pid) : alookup (sc ++ [(pid, x)]) q = alookup sc q := by
  cases hsc : alookup sc q with
  | some v => exact alookup_append_left _ hsc
  | none =>
    rw [alookup_append_right _ hsc]
    simp only [alookup]
    rw [if_neg (fun hc => h hc.symm)]

theorem accStep_fst_lookup (k : ℚ) (rank pid ref : Nat) (sc : List (Nat × ℚ))
    (docs : List (Nat × Nat)) (q : Nat) :
    alookup (accStep k rank pid ref sc docs).1 q =
      if q = pid then some ((alookup sc pid).getD 0 + 1 / (k + rank))
      else alookup sc q := by
  cases hn : alookup sc pid with
  | some v =>
    have hs : (alookup sc pid).isSome := by rw [hn]; rfl
    simp only [accStep, hs, if_true]
    by_cases hq : q = pid
    · subst hq
      rw [if_pos rfl, alookup_aupdate_self hs, hn]
    · rw [if_neg hq, alookup_aupdate_ne hq]
  | none =>
    simp only [accStep, hn, Option.isSome_none, Bool.false_eq_true, if_false]
    have happ : alookup (sc ++ [(pid, (0 : ℚ))]) pid = some 0 := by
      rw [alookup_append_right _ hn]
      simp [alookup]
    by_cases hq : q = pid
    · subst hq
      rw [if_pos rfl, alookup_aupdate_self (by rw [happ]; rfl), happ]
      rfl
    · rw [if_neg hq, alookup_aupdate_ne hq, alookup_append_single_ne hq]

theorem accStep_fst_keys (k : ℚ) (rank pid ref : Nat) (sc : List (Nat × ℚ))
    (docs : List (Nat × Nat)) :
    akeys (accStep k rank pid ref sc docs).1 =
      if (alookup sc pid).isSome then akeys sc else akeys sc ++ [pid] := by
  cases hn : alookup sc pid with
  | some v =>
    have hs : (alookup sc pid).isSome := by rw [hn]; rfl
    simp only [accStep, hs, if_true]
    exact akeys_aupdate _ _ _
  | none =>
    simp only [accStep, hn, Option.isSome_none, Bool.false_eq_true, if_false]
    rw [akeys_aupdate]
    simp [akeys, List.map_append]

theorem accStep_snd (k : ℚ) (rank pid ref : Nat) (sc : List (Nat × ℚ))
    (docs : List (Nat × Nat)) :
    (accStep k rank pid ref sc docs).2 =
      if (alookup sc pid).isSome then docs else docs ++ [(pid, ref)] := by
  cases hn : alookup sc pid with
  | some v => simp [accStep, hn]
  | none => simp [accStep, hn]

theorem accFold_fst_lookup (k : ℚ) (pairs : List (Nat × Nat)) :
    ∀ (rank : Nat) (acc : List (Nat × ℚ) × List (Nat × Nat)) (q : Nat),
    (pairs.map Prod.fst).Nodup →
    alookup (accFold k rank pairs acc).1 q =
      match posOf q (pairs.map Prod.fst) with
      | some j => some ((alookup acc.1 q).getD 0 + 1 / (k + rank + j))
      | none => alookup acc.1 q := by
  induction pairs with
  | nil => intro rank acc q _; simp [accFold, posOf]
  | cons hd rest ih =>
    intro rank acc q h
    obtain ⟨pid, ref⟩ := hd
    simp only [List.map_cons, List.nodup_cons] at h
    obtain ⟨hpid, hrest⟩ := h
    show alookup (accFold k (rank + 1) rest (accStep k rank pid ref acc.1 acc.2)).1 q = _
    rw [ih (rank + 1) _ q hrest]
    by_cases hq : q = pid
    · subst hq
      have hq_not : posOf q (rest.map Prod.fst) = none := posOf_eq_none_iff.mpr hpid
      rw [hq_not]
      have hpos : posOf q (List.map Prod.fst ((q, ref) :: rest)) = some 0 := by
        simp [posOf]
      rw [hpos]
      rw [accStep_fst_lookup, if_pos rfl]
      norm_num
    · have hpos : posOf q (List.map Prod.fst ((pid, ref) :: rest)) =
        (posOf q (rest.map Prod.fst)).map (· + 1) := by
        simp only [List.map_cons, posOf]
        rw [if_neg (fun hc => hq hc.symm)]
      rw [hpos]
      rw [accStep_fst_lookup, if_neg hq]
      cases hpos2 : posOf q (rest.map Prod.fst) with
      | none => simp
      | some j =>
        simp only [Option.map_some']
        have harith : k + ((rank : ℚ) + 1) + (j : ℚ) = k + (rank : ℚ) + ((j : ℚ) + 1) := by
          ring
        push_cast
        rw [harith]

theorem akeys_append_single {α : Type} (l : List (Nat × α)) (p : Nat) (x : α) :
    akeys (l ++ [(p, x)]) = akeys l ++ [p] := by
  simp [akeys]

theorem accFold_fst_keys (k : ℚ) (pairs : List (Nat × Nat)) :
    ∀ (rank : Nat) (acc : List (Nat × ℚ) × List (Nat × Nat)),
    (pairs.map Prod.fst).Nodup →
    akeys (accFold k rank pairs acc).1 =
      akeys acc.1 ++
        (pairs.map Prod.fst).filter (fun p => decide (alookup acc.1 p = none)) := by
  induction pairs with
  | nil => intro rank acc _; simp [accFold]
  | cons hd rest ih =>
    intro rank acc h
    obtain ⟨pid, ref⟩ := hd
    simp only [List.map_cons, List.nodup_cons] at h
    obtain ⟨hpid, hrest⟩ := h
    show akeys (accFold k (rank + 1) rest (accStep k rank pid ref acc.1 acc.2)).1 = _
    rw [ih (rank + 1) _ hrest]
    have hfilter : (rest.map Prod.fst).filter
        (fun p => decide (alookup (accStep k rank pid ref acc.1 acc.2).1 p = none)) =
        (rest.map Prod.fst).filter (fun p => decide (alookup acc.1 p = none)) := by
      apply List.filter_congr
      intro p hp
      have hne : p ≠ pid := fun hc => hpid (hc ▸ hp)
      rw [accStep_fst_lookup, if_neg hne]
    rw [hfilter, accStep_fst_keys]
    by_cases hin : (alookup acc.1 pid).isSome
    · rw [if_pos hin]
      have hdec : decide (alookup acc.1 pid = none) = false := by
        cases hsc : alookup acc.1 pid with
        | none => rw [hsc] at hin; simp at hin
        | some v => simp
      simp only [List.map_cons, List.filter_cons, hdec, Bool.false_eq_true, if_false]
    · rw [if_neg hin]
      have hnone : alookup acc.1 pid = none := by
        cases hsc : alookup acc.1 pid with
        | none => rfl
        | some v => rw [hsc] at hin; simp at hin
      simp only [List.map_cons, List.filter_cons, hnone, decide_True, if_true]
      simp [List.append_assoc]

theorem accFold_keys_eq (k : ℚ) (pairs : List (Nat × Nat)) :
    ∀ (rank : Nat) (acc : List (Nat × ℚ) × List (Nat × Nat)),
    akeys acc.1 = akeys acc.2 →
    akeys (accFold k rank pairs acc).1 = akeys (accFold k rank pairs acc).2 := by
  induction pairs with
  | nil => intro rank acc h; exact h
  | cons hd rest ih =>
    intro rank acc h
    obtain ⟨pid, ref⟩ := hd
    show akeys (accFold k (rank + 1) rest (accStep k rank pid ref acc.1 acc.2)).1 = _
    apply ih
    rw [accStep_fst_keys, accStep_snd]
    by_cases hin : (alookup acc.1 pid).isSome
    · rw [if_pos hin, if_pos hin, h]
    · rw [if_neg hin, if_neg hin, akeys_append_single, h]

theorem accFold_fst_keys_nodup (k : ℚ) (pairs : List (Nat × Nat)) :
    ∀ (rank : Nat) (acc : List (Nat × ℚ) × List (Nat × Nat)),
    (akeys acc.1).Nodup → (akeys (accFold k rank pairs acc).1).Nodup := by
  induction pairs with
  | nil => intro rank acc h; exact h
  | cons hd rest ih =>
    intro rank acc h
    obtain ⟨pid, ref⟩ := hd
    show (akeys (accFold k (rank + 1) rest (accStep k rank pid ref acc.1 acc.2)).1).Nodup
    apply ih
    rw [accStep_fst_keys]
    by_cases hin : (alookup acc.1 pid).isSome
    · rw [if_pos hin]; exact h
    · rw [if_neg hin]
      have hnone : pid ∉ akeys acc.1 := by
        intro hc
        exact hin (alookup_isSome_iff.mpr hc)
      rw [List.nodup_append]
      refine ⟨h, List.nodup_singleton _, ?_⟩
      intro a ha hc
      simp only [List.mem_singleton] at hc
      exact hnone (hc ▸ ha)

theorem accFold_snd_all_fresh (k : ℚ) (pairs : List (Nat × Nat)) :
    ∀ (rank : Nat) (acc : List (Nat × ℚ) × List (Nat × Nat)),
    (pairs.map Prod.fst).Nodup →
    (∀ p ∈ pairs.map Prod.fst, alookup acc.1 p = none) →
    (accFold k rank pairs acc).2 = acc.2 ++ pairs := by
  induction pairs with
  | nil => intro rank acc _ _; simp [accFold]
  | cons hd rest ih =>
    intro rank acc h hfresh
    obtain ⟨pid, ref⟩ := hd
    simp only [List.map_cons, List.nodup_cons] at h
    obtain ⟨hpid, hrest⟩ := h
    have hpidfresh : alookup acc.1 pid = none := hfresh pid (by simp)
    show (accFold k (rank + 1) rest (accStep k rank pid ref acc.1 acc.2)).2 = _
    rw [ih (rank + 1) _ hrest]
    · rw [accStep_snd, if_neg (by rw [hpidfresh]; simp)]
      simp
    · intro p hp
      have hne : p ≠ pid := fun hc => hpid (hc ▸ hp)
      rw [accStep_fst_lookup, if_neg hne]
      exact hfresh p (by simp [hp])

/-! ## Phase-step lemmas -/

theorem bm25_phase_cons (k : ℚ) (rank ref : Nat) (rest : List Nat) (s : RRFState) :
    bm25_phase k rank (ref :: rest) s =
      bm25_phase k (rank + 1) rest (bm25_step k rank ref s) := rfl

theorem vector_phase_cons (k : ℚ) (rank ref : Nat) (rest : List Nat) (s : RRFState) :
    vector_phase k rank (ref :: rest) s =
      vector_phase k (rank + 1) rest (vector_step k rank ref s) := by
  by_cases h : (alookup s.rrf_scores ((s.heap ref).place_id)).isSome <;>
    simp [vector_phase, vector_step, accStep, h]

theorem hupd_place_id (h : Nat → Doc) (t : Nat) (d : Doc) (r : Nat)
    (hd : d.place_id = (h t).place_id) :
    ((hupd h t d) r).place_id = (h r).place_id := by
  unfold hupd
  split_ifs with hr
  · subst hr; exact hd
  · rfl

theorem hupd_score (h : Nat → Doc) (t : Nat) (d : Doc) (r : Nat)
    (hd : d.score = (h t).score) :
    ((hupd h t d) r).score = (h r).score := by
  unfold hupd
  split_ifs with hr
  · subst hr; exact hd
  · rfl

theorem hupd_setBM25_place_id (h : Nat → Doc) (t a : Nat) (b : ℚ) (r : Nat) :
    ((hupd h t (setBM25 (h t) a b)) r).place_id = (h r).place_id :=
  hupd_place_id h t _ r rfl

theorem hupd_setBM25_score (h : Nat → Doc) (t a : Nat) (b : ℚ) (r : Nat) :
    ((hupd h t (setBM25 (h t) a b)) r).score = (h r).score :=
  hupd_score h t _ r rfl

theorem hupd_setVec_place_id (h : Nat → Doc) (t a : Nat) (b : ℚ) (r : Nat) :
    ((hupd h t (setVec (h t) a b)) r).place_id = (h r).place_id :=
  hupd_place_id h t _ r rfl

theorem hupd_setVec_score (h : Nat → Doc) (t a : Nat) (b : ℚ) (r : Nat) :
    ((hupd h t (setVec (h t) a b)) r).score = (h r).score :=
  hupd_score h t _ r rfl

theorem hupd_setBM25Null_place_id (h : Nat → Doc) (t r : Nat) :
    ((hupd h t (setBM25Null (h t))) r).place_id = (h r).place_id :=
  hupd_place_id h t _ r rfl

theorem hupd_setBM25Null_score (h : Nat → Doc) (t r : Nat) :
    ((hupd h t (setBM25Null (h t))) r).score = (h r).score :=
  hupd_score h t _ r rfl

theorem bm25_step_heap_pidscore (k : ℚ) (rank ref : Nat) (s : RRFState) (r : Nat) :
    ((bm25_step k rank ref s).heap r).place_id = (s.heap r).place_id ∧
    ((bm25_step k rank ref s).heap r).score = (s.heap r).score := by
  constructor
  · simp only [bm25_step]
    exact hupd_setBM25_place_id _ _ _ _ _
  · simp only [bm25_step]
    exact hupd_setBM25_score _ _ _ _ _

theorem vector_step_heap_pidscore (k : ℚ) (rank ref : Nat) (s : RRFState) (r : Nat) :
    ((vector_step k rank ref s).heap r).place_id = (s.heap r).place_id ∧
    ((vector_step k rank ref s).heap r).score = (s.heap r).score := by
  constructor
  · simp only [vector_step]
    rw [hupd_setVec_place_id]
    split_ifs with hc
    · rfl
    · exact hupd_setBM25Null_place_id _ _ _
  · simp only [vector_step]
    rw [hupd_setVec_score]
    split_ifs with hc
    · rfl
    · exact hupd_setBM25Null_score _ _ _

theorem bm25_phase_heap_pidscore (k : ℚ) (refs : List Nat) :
    ∀ (rank : Nat) (s : RRFState) (r : Nat),
    ((bm25_phase k rank refs s).heap r).place_id = (s.heap r).place_id ∧
    ((bm25_phase k rank refs s).heap r).score = (s.heap r).score := by
  induction refs with
  | nil => intro rank s r; exact ⟨rfl, rfl⟩
  | cons ref rest ih =>
    intro rank s r
    rw [bm25_phase_cons]
    have h1 := ih (rank + 1) (bm25_step k rank ref s) r
    have h2 := bm25_step_heap_pidscore k rank ref s r
    exact ⟨h1.1.trans h2.1, h1.2.trans h2.2⟩

theorem vector_phase_heap_pidscore (k : ℚ) (refs : List Nat) :
    ∀ (rank : Nat) (s : RRFState) (r : Nat),
    ((vector_phase k rank refs s).heap r).place_id = (s.heap r).place_id ∧
    ((vector_phase k rank refs s).heap r).score = (s.heap r).score := by
  induction refs with
  | nil => intro rank s r; exact ⟨rfl, rfl⟩
  | cons ref rest ih =>
    intro rank s r
    rw [vector_phase_cons]
    have h1 := ih (rank + 1) (vector_step k rank ref s) r
    have h2 := vector_step_heap_pidscore k rank ref s r
    exact ⟨h1.1.trans h2.1, h1.2.trans h2.2⟩

/-! ## Projection of the phases onto the pure accumulation fold -/

theorem bm25_phase_acc (k : ℚ) (refs : List Nat) :
    ∀ (rank : Nat) (s : RRFState),
    (bm25_phase k rank refs s).rrf_scores =
      (accFold k rank (refs.map fun r => ((s.heap r).place_id, r))
        (s.rrf_scores, s.all_docs)).1 ∧
    (bm25_phase k rank refs s).all_docs =
      (accFold k rank (refs.map fun r => ((s.heap r).place_id, r))
        (s.rrf_scores, s.all_docs)).2 := by
  induction refs with
  | nil => intro rank s; exact ⟨rfl, rfl⟩
  | cons ref rest ih =>
    intro rank s
    rw [bm25_phase_cons]
    have ihs := ih (rank + 1) (bm25_step k rank ref s)
    have hmap : rest.map (fun r => (((bm25_step k rank ref s).heap r).place_id, r)) =
        rest.map (fun r => ((s.heap r).place_id, r)) := by
      apply List.map_congr_left
      intro r _
      rw [(bm25_step_heap_pidscore k rank ref s r).1]
    rw [hmap] at ihs
    have hsc : (bm25_step k rank ref s).rrf_scores =
        (accStep k rank ((s.heap ref).place_id) ref s.rrf_scores s.all_docs).1 := rfl
    have hdo : (bm25_step k rank ref s).all_docs =
        (accStep k rank ((s.heap ref).place_id) ref s.rrf_scores s.all_docs).2 := rfl
    rw [hsc, hdo] at ihs
    exact ihs

theorem vector_phase_acc (k : ℚ) (refs : List Nat) :
    ∀ (rank : Nat) (s : RRFState),
    (vector_phase k rank refs s).rrf_scores =
      (accFold k rank (refs.map fun r => ((s.heap r).place_id, r))
        (s.rrf_scores, s.all_docs)).1 ∧
    (vector_phase k rank refs s).all_docs =
      (accFold k rank (refs.map fun r => ((s.heap r).place_id, r))
        (s.rrf_scores, s.all_docs)).2 := by
  induction refs with
  | nil => intro rank s; exact ⟨rfl, rfl⟩
  | cons ref rest ih =>
    intro rank s
    rw [vector_phase_cons]
    have ihs := ih (rank + 1) (vector_step k rank ref s)
    have hmap : rest.map (fun r => (((vector_step k rank ref s).heap r).place_id, r)) =
        rest.map (fun r => ((s.heap r).place_id, r)) := by
      apply List.map_congr_left
      intro r _
      rw [(vector_step_heap_pidscore k rank ref s r).1]
    rw [hmap] at ihs
    have hsc : (vector_step k rank ref s).rrf_scores =
        (accStep k rank ((s.heap ref).place_id) ref s.rrf_scores s.all_docs).1 := rfl
    have hdo : (vector_step k rank ref s).all_docs =
        (accStep k rank ((s.heap ref).place_id) ref s.rrf_scores s.all_docs).2 := rfl
    rw [hsc, hdo] at ihs
    exact ihs

/-! ## Stable-sort lemmas -/

theorem insertDesc_perm (x : Nat × ℚ) (l : List (Nat × ℚ)) :
    (insertDesc x l).Perm (x :: l) := by
  induction l with
  | nil => exact List.Perm.refl _
  | cons y ys ih =>
    unfold insertDesc
    split_ifs with h
    · exact List.Perm.refl _
    · exact (List.Perm.cons y ih).trans (List.Perm.swap x y ys)

theorem sortDesc_perm (l : List (Nat × ℚ)) : (sortDesc l).Perm l := by
  induction l with
  | nil => exact List.Perm.refl _
  | cons x xs ih =>
    exact (insertDesc_perm x (sortDesc xs)).trans (List.Perm.cons x ih)

theorem insertDesc_filter (x : Nat × ℚ) (l : List (Nat × ℚ)) (c : ℚ) :
    (insertDesc x l).filter (fun p => decide (p.2 = c)) =
      if x.2 = c then x :: l.filter (fun p => decide (p.2 = c))
      else l.filter (fun p => decide (p.2 = c)) := by
  induction l with
  | nil =>
    by_cases hx : x.2 = c <;> simp [insertDesc, List.filter, hx]
  | cons y ys ih =>
    unfold insertDesc
    by_cases hge : x.2 ≥ y.2
    · rw [if_pos hge]
      by_cases hx : x.2 = c <;> simp [List.filter_cons, hx]
    · rw [if_neg hge]
      by_cases hx : x.2 = c
      · have hy : ¬ (y.2 = c) := fun hy => hge (ge_of_eq (hx.trans hy.symm))
        simp [List.filter_cons, hy, ih, hx]
      · simp [List.filter_cons, ih, hx]

theorem sortDesc_filter (l : List (Nat × ℚ)) (c : ℚ) :
    (sortDesc l).filter (fun p => decide (p.2 = c)) =
      l.filter (fun p => decide (p.2 = c)) := by
  induction l with
  | nil => rfl
  | cons x xs ih =>
    show (insertDesc x (sortDesc xs)).filter (fun p => decide (p.2 = c)) = _
    rw [insertDesc_filter]
    by_cases hx : x.2 = c <;> simp [List.filter_cons, hx, ih]

/-! ## Output-construction lemmas -/

theorem buildFinal_proj (heap : Nat → Doc) (docs : List (Nat × Nat))
    (pairs : List (Nat × ℚ)) :
    ∀ (n : Nat),
    (∀ p ∈ pairs.map Prod.fst, ∃ r, alookup docs p = some r ∧ (heap r).place_id = p) →
    (buildFinal heap docs n pairs).map (fun d => (d.place_id, d.rrf_score)) =
      pairs.map (fun q => (q.1, FieldVal.val q.2)) := by
  induction pairs with
  | nil => intro n _; rfl
  | cons hd rest ih =>
    intro n h
    obtain ⟨p, sc⟩ := hd
    obtain ⟨r, hr, hpid⟩ := h p (by simp)
    simp only [buildFinal, List.map_cons, List.cons.injEq]
    refine ⟨?_, ih (n + 1) (fun q hq => h q (by simp [hq]))⟩
    rw [hr]
    simp [hpid]

theorem buildFinal_filter (heap : Nat → Doc) (docs : List (Nat × Nat)) (c : ℚ)
    (pairs : List (Nat × ℚ)) :
    ∀ (n : Nat),
    (∀ p ∈ pairs.map Prod.fst, ∃ r, alookup docs p = some r ∧ (heap r).place_id = p) →
    ((buildFinal heap docs n pairs).filter
        (fun d => decide (d.rrf_score = FieldVal.val c))).map Doc.place_id =
      (pairs.filter (fun q => decide (q.2 = c))).map Prod.fst := by
  induction pairs with
  | nil => intro n _; rfl
  | cons hd rest ih =>
    intro n h
    obtain ⟨p, sc⟩ := hd
    obtain ⟨r, hr, hpid⟩ := h p (by simp)
    have hrest := ih (n + 1) (fun q hq => h q (by simp [hq]))
    simp only [buildFinal, List.filter_cons]
    by_cases hsc : sc = c
    · subst hsc
      simp only [decide_True, if_true, List.map_cons, List.cons.injEq]
      refine ⟨?_, hrest⟩
      rw [hr]
      simp [hpid]
    · have h1 : decide ((FieldVal.val sc : FieldVal ℚ) = FieldVal.val c) = false := by
        simp [hsc]
      have h2 : decide (sc = c) = false := by simp [hsc]
      simp only [h1, h2, Bool.false_eq_true, if_false]
      exact hrest

/-! ## Well-formedness: `all_docs` points at objects with the right id -/

theorem alookup_append_single_cases {α : Type} {l : List (Nat × α)} {a p : Nat}
    {b v : α} (h : alookup (l ++ [(a, b)]) p = some v) :
    alookup l p = some v ∨ (p = a ∧ v = b ∧ alookup l p = none) := by
  cases hl : alookup l p with
  | some w =>
    rw [alookup_append_left _ hl] at h
    exact Or.inl h
  | none =>
    rw [alookup_append_right _ hl] at h
    simp only [alookup] at h
    by_cases ha : a = p
    · rw [if_pos ha] at h
      exact Or.inr ⟨ha.symm, (Option.some.inj h).symm, rfl⟩
    · rw [if_neg ha] at h
      exact absurd h (by simp [alookup])

theorem bm25_step_wf (k : ℚ) (rank ref : Nat) (s : RRFState)
    (h : ∀ p r, alookup s.all_docs p = some r → (s.heap r).place_id = p) :
    ∀ p r, alookup (bm25_step k rank ref s).all_docs p = some r →
      ((bm25_step k rank ref s).heap r).place_id = p := by
  intro p r hpr
  rw [(bm25_step_heap_pidscore k rank ref s r).1]
  have hdocs : (bm25_step k rank ref s).all_docs =
      (accStep k rank ((s.heap ref).place_id) ref s.rrf_scores s.all_docs).2 := rfl
  rw [hdocs, accStep_snd] at hpr
  by_cases hin : (alookup s.rrf_scores ((s.heap ref).place_id)).isSome
  · rw [if_pos hin] at hpr
    exact h p r hpr
  · rw [if_neg hin] at hpr
    rcases alookup_append_single_cases hpr with hold | ⟨hp, hr, _⟩
    · exact h p r hold
    · subst hp; subst hr; rfl

theorem vector_step_wf (k : ℚ) (rank ref : Nat) (s : RRFState)
    (h : ∀ p r, alookup s.all_docs p = some r → (s.heap r).place_id = p) :
    ∀ p r, alookup (vector_step k rank ref s).all_docs p = some r →
      ((vector_step k rank ref s).heap r).place_id = p := by
  intro p r hpr
  rw [(vector_step_heap_pidscore k rank ref s r).1]
  have hdocs : (vector_step k rank ref s).all_docs =
      (accStep k rank ((s.heap ref).place_id) ref s.rrf_scores s.all_docs).2 := rfl
  rw [hdocs, accStep_snd] at hpr
  by_cases hin : (alookup s.rrf_scores ((s.heap ref).place_id)).isSome
  · rw [if_pos hin] at hpr
    exact h p r hpr
  · rw [if_neg hin] at hpr
    rcases alookup_append_single_cases hpr with hold | ⟨hp, hr, _⟩
    · exact h p r hold
    · subst hp; subst hr; rfl

theorem bm25_phase_wf (k : ℚ) (refs : List Nat) :
    ∀ (rank : Nat) (s : RRFState),
    (∀ p r, alookup s.all_docs p = some r → (s.heap r).place_id = p) →
    ∀ p r, alookup (bm25_phase k rank refs s).all_docs p = some r →
      ((bm25_phase k rank refs s).heap r).place_id = p := by
  induction refs with
  | nil => intro rank s h; exact h
  | cons ref rest ih =>
    intro rank s h
    rw [bm25_phase_cons]
    exact ih (rank + 1) _ (bm25_step_wf k rank ref s h)

theorem vector_phase_wf (k : ℚ) (refs : List Nat) :
    ∀ (rank : Nat) (s : RRFState),
    (∀ p r, alookup s.all_docs p = some r → (s.heap r).place_id = p) →
    ∀ p r, alookup (vector_phase k rank refs s).all_docs p = some r →
      ((vector_phase k rank refs s).heap r).place_id = p := by
  induction refs with
  | nil => intro rank s h; exact h
  | cons ref rest ih =>
    intro rank s h
    rw [vector_phase_cons]
    exact ih (rank + 1) _ (vector_step_wf k rank ref s h)

/-! ## Heap layout facts -/

theorem layout_heap_b (b v : List Doc) (i : Nat) (hi : i < b.length) :
    layout_heap b v i = b[i] := by
  unfold layout_heap
  rw [List.getD_eq_getElem?_getD, List.getElem?_append, if_pos hi]
  simp [List.getElem?_eq_getElem hi]

theorem layout_heap_v (b v : List Doc) (j : Nat) (hj : j < v.length) :
    layout_heap b v (b.length + j) = v[j] := by
  unfold layout_heap
  rw [List.getD_eq_getElem?_getD, List.getElem?_append, if_neg (by omega)]
  have h : b.length + j - b.length = j := by omega
  rw [h]
  simp [List.getElem?_eq_getElem hj]

theorem b_pairs_fst (b v : List Doc) :
    ((b_refs b).map (fun r => ((layout_heap b v r).place_id, r))).map Prod.fst =
      b.map Doc.place_id := by
  apply List.ext_getElem
  · simp [b_refs]
  · intro i h1 h2
    simp only [List.getElem_map, b_refs, List.getElem_range]
    rw [layout_heap_b b v i (by simpa [b_refs] using h1)]

theorem v_pairs_fst (b v : List Doc) (h : Nat → Doc)
    (hpres : ∀ r, (h r).place_id = (layout_heap b v r).place_id) :
    ((v_refs b v).map (fun r => ((h r).place_id, r))).map Prod.fst =
      v.map Doc.place_id := by
  apply List.ext_getElem
  · simp [v_refs]
  · intro j h1 h2
    simp only [List.getElem_map, v_refs, List.getElem_range]
    rw [hpres (b.length + j)]
    rw [layout_heap_v b v j (by simpa [v_refs] using h1)]

/-! ## Characterization of the accumulated RRF scores -/

theorem contrib_posOf (k : ℚ) (p : Nat) (l : List Doc) :
    contrib k p l =
      match posOf p (l.map Doc.place_id) with
      | some j => 1 / (k + 1 + j)
      | none => 0 := by
  unfold contrib rankOf
  cases hp : posOf p (l.map Doc.place_id) with
  | none => rfl
  | some j =>
    simp only [Option.map_some']
    have : (k + ((j + 1 : ℕ) : ℚ)) = k + 1 + (j : ℚ) := by push_cast; ring
    rw [this]

theorem rrf_scores_lookup (b v : List Doc) (k : ℚ) (p : Nat)
    (hb : (b.map Doc.place_id).Nodup) (hv : (v.map Doc.place_id).Nodup) :
    alookup (rrf_run_state b v k).rrf_scores p =
      if p ∈ b.map Doc.place_id ∨ p ∈ v.map Doc.place_id
      then some (contrib k p b + contrib k p v)
      else none := by
  set s1 := bm25_phase k 1 (b_refs b) ⟨layout_heap b v, [], []⟩ with hs1
  have hpairs1 : ((b_refs b).map
      (fun r => ((layout_heap b v r).place_id, r))).map Prod.fst = b.map Doc.place_id :=
    b_pairs_fst b v
  have hacc1 : s1.rrf_scores =
      (accFold k 1 ((b_refs b).map (fun r => ((layout_heap b v r).place_id, r)))
        ([], [])).1 :=
    (bm25_phase_acc k (b_refs b) 1 ⟨layout_heap b v, [], []⟩).1
  have hlook1 : alookup s1.rrf_scores p =
      match posOf p (b.map Doc.place_id) with
      | some j => some (1 / (k + 1 + j))
      | none => none := by
    rw [hacc1, accFold_fst_lookup k _ 1 _ p (by rw [hpairs1]; exact hb)]
    rw [hpairs1]
    cases posOf p (b.map Doc.place_id) <;> simp [alookup]
  have hpairs2 : ((v_refs b v).map
      (fun r => ((s1.heap r).place_id, r))).map Prod.fst = v.map Doc.place_id := by
    apply v_pairs_fst
    intro r
    exact (bm25_phase_heap_pidscore k (b_refs b) 1 ⟨layout_heap b v, [], []⟩ r).1
  have hacc2 : (rrf_run_state b v k).rrf_scores =
      (accFold k 1 ((v_refs b v).map (fun r => ((s1.heap r).place_id, r)))
        (s1.rrf_scores, s1.all_docs)).1 :=
    (vector_phase_acc k (v_refs b v) 1 s1).1
  have hlook2 : alookup (rrf_run_state b v k).rrf_scores p =
      match posOf p (v.map Doc.place_id) with
      | some j => some ((alookup s1.rrf_scores p).getD 0 + 1 / (k + 1 + j))
      | none => alookup s1.rrf_scores p := by
    rw [hacc2, accFold_fst_lookup k _ 1 _ p (by rw [hpairs2]; exact hv)]
    rw [hpairs2]
    cases posOf p (v.map Doc.place_id) <;> simp
  rw [hlook2]
  rw [contrib_posOf, contrib_posOf]
  cases hpb : posOf p (b.map Doc.place_id) with
  | some j1 =>
    have hmem : p ∈ b.map Doc.place_id := by
      by_contra hc
      rw [posOf_eq_none_iff.mpr hc] at hpb
      exact absurd hpb (by simp)
    cases hpv : posOf p (v.map Doc.place_id) with
    | some j2 =>
      rw [if_pos (Or.inl hmem), hlook1, hpb]
      simp
    | none =>
      rw [if_pos (Or.inl hmem), hlook1, hpb]
      simp
  | none =>
    have hmemb : p ∉ b.map Doc.place_id := posOf_eq_none_iff.mp hpb
    cases hpv : posOf p (v.map Doc.place_id) with
    | some j2 =>
      have hmem : p ∈ v.map Doc.place_id := by
        by_contra hc
        rw [posOf_eq_none_iff.mpr hc] at hpv
        exact absurd hpv (by simp)
      rw [if_pos (Or.inr hmem), hlook1, hpb]
      simp
    | none =>
      have hmemv : p ∉ v.map Doc.place_id := posOf_eq_none_iff.mp hpv
      rw [if_neg (by tauto), hlook1, hpb]

/-! ## Run-level facts about `reciprocal_rank_fusion` -/

theorem rrf_run_snd (b v : List Doc) (k : ℚ) :
    (rrf_run b v k).2 =
      buildFinal (rrf_run_state b v k).heap (rrf_run_state b v k).all_docs 0
        (sortDesc (rrf_run_state b v k).rrf_scores) := rfl

theorem rrf_run_fst (b v : List Doc) (k : ℚ) :
    (rrf_run b v k).1 = (rrf_run_state b v k).heap := rfl

theorem rrf_keys_eq (b v : List Doc) (k : ℚ) :
    akeys (rrf_run_state b v k).rrf_scores = akeys (rrf_run_state b v k).all_docs := by
  set s1 := bm25_phase k 1 (b_refs b) ⟨layout_heap b v, [], []⟩ with hs1
  have h1 := bm25_phase_acc k (b_refs b) 1 ⟨layout_heap b v, [], []⟩
  have h2 := vector_phase_acc k (v_refs b v) 1 s1
  have hk1 : akeys s1.rrf_scores = akeys s1.all_docs := by
    rw [h1.1, h1.2]
    exact accFold_keys_eq k _ 1 _ rfl
  show akeys (vector_phase k 1 (v_refs b v) s1).rrf_scores =
    akeys (vector_phase k 1 (v_refs b v) s1).all_docs
  rw [h2.1, h2.2]
  exact accFold_keys_eq k _ 1 _ hk1

theorem rrf_wf (b v : List Doc) (k : ℚ) :
    ∀ p r, alookup (rrf_run_state b v k).all_docs p = some r →
      ((rrf_run_state b v k).heap r).place_id = p := by
  have hempty : ∀ p r,
      alookup (⟨layout_heap b v, [], []⟩ : RRFState).all_docs p = some r →
      ((⟨layout_heap b v, [], []⟩ : RRFState).heap r).place_id = p := by
    intro p r h
    simp [alookup] at h
  exact vector_phase_wf k (v_refs b v) 1 _ (bm25_phase_wf k (b_refs b) 1 _ hempty)

theorem rrf_keys_nodup (b v : List Doc) (k : ℚ) :
    (akeys (rrf_run_state b v k).rrf_scores).Nodup := by
  set s1 := bm25_phase k 1 (b_refs b) ⟨layout_heap b v, [], []⟩ with hs1
  have h1 := (bm25_phase_acc k (b_refs b) 1 ⟨layout_heap b v, [], []⟩).1
  have h2 := (vector_phase_acc k (v_refs b v) 1 s1).1
  have hk1 : (akeys s1.rrf_scores).Nodup := by
    rw [h1]
    exact accFold_fst_keys_nodup k _ 1 _ (by simp [akeys])
  show (akeys (vector_phase k 1 (v_refs b v) s1).rrf_scores).Nodup
  rw [h2]
  exact accFold_fst_keys_nodup k _ 1 _ hk1

theorem rrf_buildFinal_hyp (b v : List Doc) (k : ℚ) :
    ∀ p ∈ (sortDesc (rrf_run_state b v k).rrf_scores).map Prod.fst,
    ∃ r, alookup (rrf_run_state b v k).all_docs p = some r ∧
      ((rrf_run_state b v k).heap r).place_id = p := by
  intro p hp
  have hperm : ((sortDesc (rrf_run_state b v k).rrf_scores).map Prod.fst).Perm
      (akeys (rrf_run_state b v k).rrf_scores) :=
    (sortDesc_perm _).map Prod.fst
  have hp' : p ∈ akeys (rrf_run_state b v k).rrf_scores := hperm.mem_iff.mp hp
  rw [rrf_keys_eq] at hp'
  obtain ⟨r, hr⟩ := Option.isSome_iff_exists.mp (alookup_isSome_iff.mpr hp')
  exact ⟨r, hr, rrf_wf b v k p r hr⟩

theorem rrf_output_pids (b v : List Doc) (k : ℚ) :
    (rrf_run b v k).2.map Doc.place_id =
      (sortDesc (rrf_run_state b v k).rrf_scores).map Prod.fst := by
  have hproj := buildFinal_proj (rrf_run_state b v k).heap (rrf_run_state b v k).all_docs
    (sortDesc (rrf_run_state b v k).rrf_scores) 0 (rrf_buildFinal_hyp b v k)
  have h1 : (rrf_run b v k).2.map Doc.place_id =
      ((rrf_run b v k).2.map (fun d => (d.place_id, d.rrf_score))).map Prod.fst := by
    rw [List.map_map]
    rfl
  rw [h1, rrf_run_snd, hproj, List.map_map]
  rfl

theorem rrf_output_nodup (b v : List Doc) (k : ℚ) :
    ((rrf_run b v k).2.map Doc.place_id).Nodup := by
  rw [rrf_output_pids]
  exact ((sortDesc_perm _).map Prod.fst).nodup_iff.mpr (rrf_keys_nodup b v k)

theorem rrf_keys_structure (b v : List Doc) (k : ℚ)
    (hb : (b.map Doc.place_id).Nodup) (hv : (v.map Doc.place_id).Nodup) :
    akeys (rrf_run_state b v k).rrf_scores =
      b.map Doc.place_id ++
        (v.map Doc.place_id).filter (fun p => decide (p ∉ b.map Doc.place_id)) := by
  set s1 := bm25_phase k 1 (b_refs b) ⟨layout_heap b v, [], []⟩ with hs1
  have hpairs1 := b_pairs_fst b v
  have h1 : s1.rrf_scores =
      (accFold k 1 ((b_refs b).map (fun r => ((layout_heap b v r).place_id, r)))
        ([], [])).1 :=
    (bm25_phase_acc k (b_refs b) 1 ⟨layout_heap b v, [], []⟩).1
  have hk1 : akeys s1.rrf_scores = b.map Doc.place_id := by
    rw [h1, accFold_fst_keys k _ 1 _ (by rw [hpairs1]; exact hb), hpairs1]
    simp [akeys, alookup]
  have hpairs2 : ((v_refs b v).map
      (fun r => ((s1.heap r).place_id, r))).map Prod.fst = v.map Doc.place_id := by
    apply v_pairs_fst
    intro r
    exact (bm25_phase_heap_pidscore k (b_refs b) 1 ⟨layout_heap b v, [], []⟩ r).1
  have h2 : (rrf_run_state b v k).rrf_scores =
      (accFold k 1 ((v_refs b v).map (fun r => ((s1.heap r).place_id, r)))
        (s1.rrf_scores, s1.all_docs)).1 :=
    (vector_phase_acc k (v_refs b v) 1 s1).1
  rw [h2, accFold_fst_keys k _ 1 _ (by rw [hpairs2]; exact hv), hpairs2]
  rw [hk1]
  congr 1
  apply List.filter_congr
  intro p _
  rw [decide_eq_decide, alookup_eq_none_iff, hk1]

/-- **C1**: with the default `k = 60` and channel lists with unique
`place_id`s, the fused `rrf_score` of a document present in at least one
list is exactly the sum of its per-list contributions: `1/(60+r1)` for
keyword rank `r1` (`0` if absent) plus `1/(60+r2)` for vector rank `r2`
(`0` if absent).  This covers the three cases of the claim: keyword-only
documents get `1/(60+r1)`, hybrid documents get `1/(60+r1) + 1/(60+r2)`,
vector-only documents get `1/(60+r2)`. -/
theorem C1_rrf_score_formula (b v : List Doc) (pid : Nat)
    (hb : (b.map Doc.place_id).Nodup) (hv : (v.map Doc.place_id).Nodup)
    (hmem : pid ∈ b.map Doc.place_id ∨ pid ∈ v.map Doc.place_id) :
    ∃ d ∈ (rrf_run b v 60).2, d.place_id = pid ∧
      d.rrf_score = FieldVal.val (contrib 60 pid b + contrib 60 pid v) := by
  have hlook := rrf_scores_lookup b v 60 pid hb hv
  rw [if_pos hmem] at hlook
  have hmempair : (pid, contrib 60 pid b + contrib 60 pid v) ∈
      (rrf_run_state b v 60).rrf_scores := alookup_mem hlook
  have hsorted : (pid, contrib 60 pid b + contrib 60 pid v) ∈
      sortDesc (rrf_run_state b v 60).rrf_scores :=
    (sortDesc_perm _).mem_iff.mpr hmempair
  have hproj := buildFinal_proj (rrf_run_state b v 60).heap
    (rrf_run_state b v 60).all_docs (sortDesc (rrf_run_state b v 60).rrf_scores) 0
    (rrf_buildFinal_hyp b v 60)
  have hmem2 : (pid, FieldVal.val (contrib 60 pid b + contrib 60 pid v)) ∈
      (rrf_run b v 60).2.map (fun d => (d.place_id, d.rrf_score)) := by
    rw [rrf_run_snd, hproj]
    exact List.mem_map.mpr ⟨_, hsorted, rfl⟩
  obtain ⟨d, hd, heq⟩ := List.mem_map.mp hmem2
  have heq' := Prod.mk.injEq _ _ _ _ ▸ heq
  exact ⟨d, hd, (Prod.ext_iff.mp heq).1, (Prod.ext_iff.mp heq).2⟩

/-- Witness for C1 at a concrete input: `place_id = 2` sits at keyword rank
2 and vector rank 1, so its fused score is `1/62 + 1/61`. -/
theorem C1_rrf_score_formula_witness :
    ((exB.map Doc.place_id).Nodup ∧ (exV.map Doc.place_id).Nodup ∧
      (2 ∈ exB.map Doc.place_id ∨ 2 ∈ exV.map Doc.place_id)) ∧
    (∃ d ∈ (rrf_run exB exV 60).2, d.place_id = 2 ∧
      d.rrf_score = FieldVal.val (contrib 60 2 exB + contrib 60 2 exV)) :=
  ⟨⟨by decide, by decide, by decide⟩,
    C1_rrf_score_formula exB exV 2 (by decide) (by decide) (by decide)⟩

/-- **C7** (tie-break stability): the fused output lists the documents of
any fixed score value `c` in exactly the order of the accumulation dict
`rrf_scores` (first-encounter order), and that order is: keyword-list
documents in list order, then vector-only documents in list order.  The
sort is the stable descending insertion sort, never an unstable one. -/
theorem C7_tie_break (b v : List Doc) (k : ℚ)
    (hb : (b.map Doc.place_id).Nodup) (hv : (v.map Doc.place_id).Nodup) :
    (∀ c : ℚ,
      ((rrf_run b v k).2.filter
          (fun d => decide (d.rrf_score = FieldVal.val c))).map Doc.place_id =
        ((rrf_run_state b v k).rrf_scores.filter
          (fun q => decide (q.2 = c))).map Prod.fst) ∧
    akeys (rrf_run_state b v k).rrf_scores =
      b.map Doc.place_id ++
        (v.map Doc.place_id).filter (fun p => decide (p ∉ b.map Doc.place_id)) := by
  constructor
  · intro c
    rw [rrf_run_snd, buildFinal_filter _ _ c _ 0 (rrf_buildFinal_hyp b v k),
      sortDesc_filter]
  · exact rrf_keys_structure b v k hb hv

/-- Witness for C7 at a concrete input with a genuine tie: keyword rank 1
(id 1) and vector rank 1 (id 3) both score `1/61`, and the output keeps
id 1 (keyword, encountered first) before id 3. -/
theorem C7_tie_break_witness :
    ((exB2.map Doc.place_id).Nodup ∧ (exV2.map Doc.place_id).Nodup) ∧
    (((rrf_run exB2 exV2 60).2.filter
        (fun d => decide (d.rrf_score = FieldVal.val (1 / 61)))).map Doc.place_id =
      ((rrf_run_state exB2 exV2 60).rrf_scores.filter
        (fun q => decide (q.2 = 1 / 61))).map Prod.fst) :=
  ⟨⟨by decide, by decide⟩,
    (C7_tie_break exB2 exV2 60 (by decide) (by decide)).1 (1 / 61)⟩

/-- **C3, counterexample**: two sub-queries that both surface `place_id` 1
(each channel list itself duplicate-free).  With `size = 2` the quota pass
appends one copy per sub-query with no de-duplication, so the final output
repeats the place. -/
theorem C3_counterexample :
    ((exBm1 "a" 20).map Doc.place_id).Nodup ∧
    ((exVec0 "a" 20).map Doc.place_id).Nodup ∧
    ((exBm1 "b" 20).map Doc.place_id).Nodup ∧
    ((exVec0 "b" 20).map Doc.place_id).Nodup ∧
    (execute_multiple_query_search exBm1 exVec0 ["a", "b"] 2).map Doc.place_id
      = [1, 1] ∧
    ¬ ((execute_multiple_query_search exBm1 exVec0 ["a", "b"] 2).map
        Doc.place_id).Nodup := by
  refine ⟨by decide, by decide, by decide, by decide, by decide, by decide⟩

/-- **C3, amended**: the single-query path of `hybrid_search`
(`reciprocal_rank_fusion` followed by truncation) never outputs a
`place_id` twice — unconditionally, since the fused list is keyed by
`place_id`.  The multi-query path gives no such guarantee (its quota pass
does not de-duplicate; see the counterexample). -/
theorem C3_no_duplicates_amended (bm25ch vecch : String → Nat → List Doc)
    (queries : List String) (size : Nat) (h1 : queries.length = 1) :
    ((hybrid_search bm25ch vecch queries size).map Doc.place_id).Nodup := by
  match queries, h1 with
  | [q], _ =>
    unfold hybrid_search
    rw [if_neg (by simp), if_neg (by simp)]
    dsimp only
    split_ifs with hc
    · simp
    · rw [List.map_take]
      exact (List.take_sublist _ _).nodup (rrf_output_nodup _ _ 60)

/-- Witness for the amended C3 at a concrete input. -/
theorem C3_no_duplicates_amended_witness :
    (([("q" : String)] : List String).length = 1) ∧
    ((hybrid_search exBm1 exVec0 ["q"] 2).map Doc.place_id).Nodup :=
  ⟨rfl, C3_no_duplicates_amended exBm1 exVec0 ["q"] 2 rfl⟩

/-! ## C2: the provenance tag -/

/-- **C2, code evaluation at the failing input**: with an empty keyword list
and one vector-only document, `reciprocal_rank_fusion` writes
`bm25_rank = None` into the document, so the final `"bm25_rank" in doc`
test succeeds and the document is tagged `hybrid` — the dead `else` branch
`vector_only` is never reached. -/
theorem C2_vector_only_tagged_hybrid :
    (rrf_run [] exV2 60).2.map
        (fun d => (d.place_id, d.bm25_rank, d.vector_rank, d.search_method)) =
      [(3, FieldVal.null, FieldVal.val 1, FieldVal.val "hybrid")] ∧
    (FieldVal.val "hybrid" : FieldVal String) ≠ FieldVal.val "vector_only" := by
  refine ⟨by decide, by decide⟩

/-! ## C4: empty-signal keyword queries -/

/-- **C4, counterexample**: with no query text and no entities, the
`compare` builder falls through to a match-everything `match_all` query,
not to the explicit non-matching `must_not match_all` marker. -/
theorem C4_counterexample :
    (build_bm25_query (fun _ => []) "" {} "compare" 50).query = ESQuery.match_all ∧
    ESQuery.match_all ≠ ESQuery.must_not_match_all := by
  refine ⟨rfl, by decide⟩

/-- **C4, amended**: when the query text and entities yield no clause, the
`search` and `information` builders produce the explicit non-matching
`must_not match_all` query, but the `compare` builder produces
`match_all`. -/
theorem C4_empty_signal_amended (coords : String → List CoordDoc)
    (query_text : String) (e : Entities) (size : Nat)
    (h : query_text = "" ∧ e.title = [] ∧ e.category = [] ∧ e.convenience = [] ∧
      e.atmosphere = [] ∧ e.occasion = [] ∧ e.menu = [] ∧ e.location = []) :
    (build_bm25_query coords query_text e "search" size).query =
      ESQuery.must_not_match_all ∧
    (build_bm25_query coords query_text e "information" size).query =
      ESQuery.must_not_match_all ∧
    (build_bm25_query coords query_text e "compare" size).query =
      ESQuery.match_all := by
  obtain ⟨hq, ht, hc, hv, ha, ho, hm, hl⟩ := h
  obtain ⟨et, ec, ev, ea, eo, em, el⟩ := e
  simp only at ht hc hv ha ho hm hl
  subst hq ht hc hv ha ho hm hl
  exact ⟨rfl, rfl, rfl⟩

/-- Witness for the amended C4 at a concrete empty input. -/
theorem C4_empty_signal_amended_witness :
    (("" : String) = "" ∧ ({} : Entities).title = [] ∧ ({} : Entities).category = [] ∧
      ({} : Entities).convenience = [] ∧ ({} : Entities).atmosphere = [] ∧
      ({} : Entities).occasion = [] ∧ ({} : Entities).menu = [] ∧
      ({} : Entities).location = []) ∧
    (build_bm25_query (fun _ => []) "" {} "search" 50).query =
      ESQuery.must_not_match_all ∧
    (build_bm25_query (fun _ => []) "" {} "information" 50).query =
      ESQuery.must_not_match_all ∧
    (build_bm25_query (fun _ => []) "" {} "compare" 50).query =
      ESQuery.match_all :=
  ⟨⟨rfl, rfl, rfl, rfl, rfl, rfl, rfl, rfl⟩,
    C4_empty_signal_amended (fun _ => []) "" {} 50
      ⟨rfl, rfl, rfl, rfl, rfl, rfl, rfl, rfl⟩⟩

/-! ## C5: convenience entities in the search builder -/
/-- **C5, counterexample**: a search-intent query with a convenience entity
puts the convenience term into the optional `should` list (boost 1.2) and
attaches no filter at all — there is no mandatory convenience clause. -/
theorem C5_counterexample :
    (build_general_search_bm25_query (fun _ => []) "q"
        { convenience := ["parking"] } 50).query =
      ESQuery.bool_query
        { must := none,
          should := some [Clause.multi_match "q" search_fields (1 / 2) "AUTO",
            Clause.match_field "convenience" (String.intercalate "," ["parking"])
              (some (6 / 5))],
          minimum_should_match := some 1,
          filter := none } := rfl

/-- Helper: every clause produced by the location-filter fold is a
`geo_distance` clause or an address `match` clause. -/
theorem build_location_filters_shape (coords : String → List CoordDoc)
    (locs : List String) :
    ∀ (acc : List Clause),
    (∀ c ∈ acc, (∃ dist lat lon, c = Clause.geo_distance dist lat lon) ∨
      (∃ loc, c = Clause.match_field "address" loc none)) →
    ∀ c ∈ locs.foldl
      (fun filters location =>
        let rs := coords location
        if rs ≠ [] then
          if rs.length = 1 ∨ (rs.headD default).name.trim = location.trim then
            filters ++
              [Clause.geo_distance "3km" (rs.headD default).lat (rs.headD default).lon]
          else filters ++ [Clause.match_field "address" location none]
        else filters) acc,
      (∃ dist lat lon, c = Clause.geo_distance dist lat lon) ∨
        (∃ loc, c = Clause.match_field "address" loc none) := by
  induction locs with
  | nil => intro acc hacc c hc; exact hacc c hc
  | cons loc rest ih =>
    intro acc hacc c hc
    rw [List.foldl_cons] at hc
    refine ih _ ?_ c hc
    intro c' hc'
    by_cases h1 : coords loc ≠ []
    · rw [if_pos h1] at hc'
      by_cases h2 : (coords loc).length = 1 ∨
          ((coords loc).headD default).name.trim = loc.trim
      · rw [if_pos h2] at hc'
        rcases List.mem_append.mp hc' with hi | hi
        · exact hacc c' hi
        · rw [List.mem_singleton] at hi
          exact Or.inl ⟨_, _, _, hi⟩
      · rw [if_neg h2] at hc'
        rcases List.mem_append.mp hc' with hi | hi
        · exact hacc c' hi
        · rw [List.mem_singleton] at hi
          exact Or.inr ⟨_, hi⟩
    · rw [if_neg h1] at hc'
      exact hacc c' hc'

/-- **C5, amended**: a non-empty convenience entity list contributes an
*optional* `should` boost clause (boost 1.2) to the search-intent keyword
query; the filter part (location-derived only) never contains a
convenience clause. -/
theorem C5_convenience_amended (coords : String → List CoordDoc)
    (query_text : String) (e : Entities) (size : Nat) (h : e.convenience ≠ []) :
    ∃ bq : BoolQuery,
      (build_general_search_bm25_query coords query_text e size).query =
        ESQuery.bool_query bq ∧
      Clause.match_field "convenience" (String.intercalate "," e.convenience)
          (some (6 / 5)) ∈ bq.should.getD [] ∧
      bq.minimum_should_match = some 1 ∧
      ∀ c ∈ bq.filter.getD [], ∀ q b, c ≠ Clause.match_field "convenience" q b := by
  have hfilters := build_location_filters_shape coords e.location []
    (by intro c hc; simp at hc)
  simp only [build_general_search_bm25_query]
  set S : List Clause :=
    (if query_text ≠ "" then
      [Clause.multi_match query_text search_fields (1 / 2) "AUTO"] else [])
    ++ e.title.map (fun t => Clause.match_field "title" t (some 1))
    ++ (if e.category ≠ [] then
      [Clause.match_field "category" (String.intercalate "," e.category) (some 2)] else [])
    ++ (if e.convenience ≠ [] then
      [Clause.match_field "convenience" (String.intercalate "," e.convenience)
        (some (6 / 5))] else [])
    ++ (if e.atmosphere ≠ [] then
      [Clause.match_field "atmosphere" (String.intercalate "," e.atmosphere)
        (some 1)] else [])
    ++ (if e.occasion ≠ [] then
      [Clause.match_field "occasion" (String.intercalate "," e.occasion)
        (some 1)] else [])
    ++ (if e.menu ≠ [] then
      [Clause.nested_review_food (String.intercalate "," e.menu) (6 / 5),
       Clause.match_field "review_food" (String.intercalate "," e.menu)
         (some (6 / 5))] else []) with hS
  have hconv : Clause.match_field "convenience" (String.intercalate "," e.convenience)
      (some (6 / 5)) ∈ S := by
    rw [hS]
    simp only [List.mem_append]
    left; left; left
    right
    rw [if_pos h]
    exact List.mem_singleton.mpr rfl
  have hne : S ≠ [] := by
    intro hnil
    rw [hnil] at hconv
    exact absurd hconv (List.not_mem_nil _)
  rw [if_pos hne]
  by_cases hloc : build_location_filters coords e ≠ []
  · rw [if_pos hloc]
    rw [if_neg (by simp)]
    refine ⟨⟨none, some S, some 1, some (build_location_filters coords e)⟩,
      rfl, by simpa using hconv, rfl, ?_⟩
    intro c hc q bq
    simp only [Option.getD_some] at hc
    have hc' : c ∈ e.location.foldl
        (fun filters location =>
          let rs := coords location
          if rs ≠ [] then
            if rs.length = 1 ∨ (rs.headD default).name.trim = location.trim then
              filters ++
                [Clause.geo_distance "3km" (rs.headD default).lat (rs.headD default).lon]
            else filters ++ [Clause.match_field "address" location none]
          else filters) [] := hc
    rcases hfilters c hc' with ⟨dist, lat, lon, hgeo⟩ | ⟨loc, haddr⟩
    · rw [hgeo]; simp
    · rw [haddr]
      intro hcontra
      have := (Clause.match_field.injEq _ _ _ _ _ _).mp hcontra
      simp at this
  · rw [if_neg hloc]
    rw [if_neg (by simp)]
    refine ⟨⟨none, some S, some 1, none⟩, rfl, by simpa using hconv, rfl, ?_⟩
    intro c hc q bq
    simp at hc

/-- Witness for the amended C5 at a concrete input. -/
theorem C5_convenience_amended_witness :
    (({ convenience := ["parking"] } : Entities).convenience ≠ []) ∧
    (∃ bq : BoolQuery,
      (build_general_search_bm25_query (fun _ => []) "q"
          { convenience := ["parking"] } 50).query = ESQuery.bool_query bq ∧
      Clause.match_field "convenience"
          (String.intercalate "," ({ convenience := ["parking"] } : Entities).convenience)
          (some (6 / 5)) ∈ bq.should.getD [] ∧
      bq.minimum_should_match = some 1 ∧
      ∀ c ∈ bq.filter.getD [], ∀ q b, c ≠ Clause.match_field "convenience" q b) :=
  ⟨by decide,
    C5_convenience_amended (fun _ => []) "q" { convenience := ["parking"] } 50
      (by decide)⟩


/-! ## C6: channel error behaviour -/

/-- **C6, counterexample**: an embedder failure is raised *before* the
`try` block of `execute_vector_search` and propagates to the caller
instead of degrading to an empty list. -/
theorem C6_counterexample :
    execute_vector_search (fun _ => Except.error "embedder down")
        (fun _ => Except.ok []) (fun _ => []) "q" {} "search" 5 =
      Except.error "embedder down" := rfl

/-- **C6, amended**: document-store failures are caught at both channel
boundaries and degrade the channel to an empty list (`execute_bm25_search`
never returns an error at all), but an embedder failure in
`execute_vector_search` propagates to the caller unchanged. -/
theorem C6_channel_errors_amended
    (bstore : QueryBody → Except String (List Hit))
    (embedder : List String → Except String (List ℚ))
    (vstore : VectorQueryBody → Except String (List Hit))
    (coords : String → List CoordDoc) (query_text : String) (e : Entities)
    (intent : String) (size : Nat) :
    (∃ l, execute_bm25_search bstore coords query_text e intent size =
      Except.ok l) ∧
    (∀ msg, embedder [query_text] = Except.error msg →
      execute_vector_search embedder vstore coords query_text e intent size =
        Except.error msg) ∧
    (∀ emb, embedder [query_text] = Except.ok emb →
      ∃ l, execute_vector_search embedder vstore coords query_text e intent size =
        Except.ok l) := by
  refine ⟨?_, ?_, ?_⟩
  · cases hres : bstore (build_bm25_query coords query_text e intent size) with
    | error msg =>
      refine ⟨[], ?_⟩
      simp only [execute_bm25_search, hres]
    | ok hits =>
      refine ⟨process_bm25_hits 0 hits, ?_⟩
      simp only [execute_bm25_search, hres]
  · intro msg hmsg
    simp only [execute_vector_search, hmsg]
  · intro emb hemb
    cases hres : vstore (build_vector_query coords emb e size) with
    | error msg =>
      refine ⟨[], ?_⟩
      simp only [execute_vector_search, hemb, hres]
    | ok hits =>
      refine ⟨process_vector_hits 0 hits, ?_⟩
      simp only [execute_vector_search, hemb, hres]

/-- Witness for the amended C6 at concrete channel outcomes. -/
theorem C6_channel_errors_amended_witness :
    (execute_vector_search (fun _ => Except.error "x") (fun _ => Except.ok [])
        (fun _ => []) "q" {} "search" 5 = Except.error "x") ∧
    (∃ l, execute_bm25_search (fun _ => Except.error "down") (fun _ => []) "q" {}
        "search" 5 = Except.ok l) :=
  ⟨(C6_channel_errors_amended (fun _ => Except.error "down")
        (fun _ => Except.error "x") (fun _ => Except.ok []) (fun _ => []) "q" {}
        "search" 5).2.1 "x" rfl,
    (C6_channel_errors_amended (fun _ => Except.error "down")
        (fun _ => Except.error "x") (fun _ => Except.ok []) (fun _ => []) "q" {}
        "search" 5).1⟩

/-! ## C8: quota-pass fairness -/

theorem buildFinal_length (heap : Nat → Doc) (docs : List (Nat × Nat))
    (pairs : List (Nat × ℚ)) :
    ∀ n, (buildFinal heap docs n pairs).length = pairs.length := by
  induction pairs with
  | nil => intro n; rfl
  | cons hd rest ih =>
    intro n
    obtain ⟨p, sc⟩ := hd
    simp only [buildFinal, List.length_cons, ih (n + 1)]

theorem rrf_run_output_length (b v : List Doc) (k : ℚ) :
    (rrf_run b v k).2.length = (rrf_run_state b v k).rrf_scores.length := by
  rw [rrf_run_snd, buildFinal_length _ _ _ 0, (sortDesc_perm _).length_eq]

theorem rrf_run_exB_length : (rrf_run exB ([] : List Doc) 60).2.length = 2 := by
  have hkeys : akeys (rrf_run_state exB ([] : List Doc) 60).rrf_scores = [1, 2] := by
    rw [rrf_keys_structure exB [] 60 (by decide) (by decide)]
    decide
  have hlenkeys := congrArg List.length hkeys
  rw [akeys, List.length_map] at hlenkeys
  rw [rrf_run_output_length, hlenkeys]
  rfl

/-- **C8, counterexample**: two sub-queries (`n = 2`), budget `B = 2`, but
only sub-query "a" is productive.  The quota is computed from the number of
*productive* sub-queries (`max(1, 2 // 1) = 2`), so "a" contributes 2
documents in the quota pass, exceeding `ceil(B/n) = 1`. -/
theorem C8_counterexample :
    (msearch_query_results exBm2 exVec0 ["a", "b"] 2).length = 1 ∧
    (((msearch_query_results exBm2 exVec0 ["a", "b"] 2).headD ("", [])).2.take
        (max 1 (2 / (msearch_query_results exBm2 exVec0 ["a", "b"] 2).length))).length
      = 2 ∧
    ¬ (2 ≤ (2 + 2 - 1) / 2) := by
  have hqlen : (msearch_query_results exBm2 exVec0 ["a", "b"] 2).length = 1 := by
    decide
  have hhead : ((msearch_query_results exBm2 exVec0 ["a", "b"] 2).headD ("", [])).2
      = (rrf_run exB ([] : List Doc) 60).2 := rfl
  refine ⟨hqlen, ?_, by decide⟩
  rw [hhead, hqlen]
  rw [List.length_take, rrf_run_exB_length]
  decide

/-- **C8, amended**: in the quota pass each productive sub-query contributes
at most `max(1, B // m)` documents, where `m` is the number of sub-queries
with a non-empty channel result (`m ≤ n`); the bound uses `m`, not the
total number `n` of sub-queries. -/
theorem C8_quota_amended (bm25ch vecch : String → Nat → List Doc)
    (queries : List String) (size : Nat) (qr : String × List Doc)
    (hqr : qr ∈ msearch_query_results bm25ch vecch queries size) :
    (qr.2.take
        (max 1 (size / (msearch_query_results bm25ch vecch queries size).length))).length
      ≤ max 1 (size / (msearch_query_results bm25ch vecch queries size).length) ∧
    (msearch_query_results bm25ch vecch queries size).length ≤ queries.length := by
  constructor
  · rw [List.length_take]
    exact min_le_left _ _
  · exact List.length_filterMap_le _ _

/-- Witness for the amended C8 at the counterexample input. -/
theorem C8_quota_amended_witness :
    ((("a" : String), (rrf_run exB ([] : List Doc) 60).2) ∈
      msearch_query_results exBm2 exVec0 ["a", "b"] 2) ∧
    (((("a" : String), (rrf_run exB ([] : List Doc) 60).2).2.take
        (max 1 (2 / (msearch_query_results exBm2 exVec0 ["a", "b"] 2).length))).length
      ≤ max 1 (2 / (msearch_query_results exBm2 exVec0 ["a", "b"] 2).length) ∧
    (msearch_query_results exBm2 exVec0 ["a", "b"] 2).length ≤
      (["a", "b"] : List String).length) := by
  have hmem : ((("a" : String), (rrf_run exB ([] : List Doc) 60).2) ∈
      msearch_query_results exBm2 exVec0 ["a", "b"] 2) := by
    show _ ∈ [(("a" : String), (rrf_run exB ([] : List Doc) 60).2)]
    exact List.mem_singleton.mpr rfl
  exact ⟨hmem, C8_quota_amended exBm2 exVec0 ["a", "b"] 2 _ hmem⟩

/-! ## C9: the per-sub-query fetch window -/

/-- **C9, counterexample**: with `B = 12` and two sub-queries, the channels
are called with window `max(20, 12 // 2 * 2) = 20`; the claimed window
`max(20, (12 // 2) × 4)` is 24.  The channel `exBm3` records the window it
receives in the `place_id` of its result, and both sub-queries report 20. -/
theorem C9_counterexample :
    (msearch_query_results exBm3 exVec0 ["a", "b"] 12).map
        (fun qr => qr.2.map Doc.place_id) = [[20], [20]] ∧
    max 20 (12 / 2 * 4) = 24 ∧ (20 : Nat) ≠ 24 := by
  refine ⟨by decide, by decide, by decide⟩

/-- **C9, amended**: the result of the multi-query search depends on the
channels only through their value at the fetch window
`max(20, size // len(queries) * 2)` — i.e. that is the window passed to
every channel call. -/
theorem C9_window_amended (bm25ch vecch : String → Nat → List Doc)
    (queries : List String) (size : Nat) :
    execute_multiple_query_search bm25ch vecch queries size =
      execute_multiple_query_search
        (fun q _ => bm25ch q (max 20 (size / queries.length * 2)))
        (fun q _ => vecch q (max 20 (size / queries.length * 2))) queries size := rfl

/-! ## C10: in-place mutation of the input documents -/

theorem accStep_keys_eq (k : ℚ) (rank pid ref : Nat) (sc : List (Nat × ℚ))
    (docs : List (Nat × Nat)) (h : akeys sc = akeys docs) :
    akeys (accStep k rank pid ref sc docs).1 =
      akeys (accStep k rank pid ref sc docs).2 := by
  rw [accStep_fst_keys, accStep_snd]
  by_cases hin : (alookup sc pid).isSome
  · rw [if_pos hin, if_pos hin, h]
  · rw [if_neg hin, if_neg hin, akeys_append_single, h]

theorem accStep_tref_of_fresh (k : ℚ) (rank pid ref : Nat) (sc : List (Nat × ℚ))
    (docs : List (Nat × Nat)) (hkeys : akeys sc = akeys docs)
    (hfresh : alookup sc pid = none) :
    alookup (accStep k rank pid ref sc docs).2 pid = some ref := by
  rw [accStep_snd, if_neg (by rw [hfresh]; simp)]
  have hdocs_none : alookup docs pid = none :=
    alookup_eq_none_iff.mpr (hkeys ▸ alookup_eq_none_iff.mp hfresh)
  rw [alookup_append_right _ hdocs_none]
  simp [alookup]

theorem accStep_tref_of_present (k : ℚ) (rank pid ref : Nat) (sc : List (Nat × ℚ))
    (docs : List (Nat × Nat)) (hin : (alookup sc pid).isSome) :
    (accStep k rank pid ref sc docs).2 = docs := by
  rw [accStep_snd, if_pos hin]

theorem vector_step_heap_shape (k : ℚ) (rank ref : Nat) (s : RRFState) :
    (vector_step k rank ref s).heap =
      (let place_id := (s.heap ref).place_id
      let heap0 := if (alookup s.rrf_scores place_id).isSome then s.heap
        else hupd s.heap ref (setBM25Null (s.heap ref))
      let tref := (alookup (accStep k rank place_id ref s.rrf_scores s.all_docs).2
        place_id).getD 0
      hupd heap0 tref (setVec (heap0 tref) rank ((s.heap ref).score))) := rfl

theorem vector_step_untouched (k : ℚ) (rank ref : Nat) (s : RRFState) (r : Nat)
    (hne : r ≠ ref) (hkeys : akeys s.rrf_scores = akeys s.all_docs)
    (hdocs : ∀ t, alookup s.all_docs ((s.heap ref).place_id) = some t → t ≠ r) :
    (vector_step k rank ref s).heap r = s.heap r := by
  have htref : (alookup (accStep k rank ((s.heap ref).place_id) ref s.rrf_scores
      s.all_docs).2 ((s.heap ref).place_id)).getD 0 ≠ r := by
    by_cases hin : (alookup s.rrf_scores ((s.heap ref).place_id)).isSome
    · have hin' : ((s.heap ref).place_id) ∈ akeys s.all_docs :=
        hkeys ▸ alookup_isSome_iff.mp hin
      obtain ⟨t, ht⟩ := Option.isSome_iff_exists.mp (alookup_isSome_iff.mpr hin')
      rw [accStep_tref_of_present k rank _ ref _ _ hin, ht]
      exact fun hc => (hdocs t ht) hc
    · have hfresh : alookup s.rrf_scores ((s.heap ref).place_id) = none := by
        cases hsc : alookup s.rrf_scores ((s.heap ref).place_id) with
        | none => rfl
        | some w => rw [hsc] at hin; simp at hin
      rw [accStep_tref_of_fresh k rank _ ref _ _ hkeys hfresh]
      simp only [Option.getD_some]
      exact fun hc => hne hc.symm
  rw [vector_step_heap_shape]
  show (hupd _ _ _) r = s.heap r
  unfold hupd
  rw [if_neg (fun hc => htref hc.symm)]
  by_cases hin : (alookup s.rrf_scores ((s.heap ref).place_id)).isSome
  · rw [if_pos hin]
  · rw [if_neg hin, if_neg hne]

theorem vector_step_bm25_fields (k : ℚ) (rank ref : Nat) (s : RRFState) (r : Nat)
    (hne : r ≠ ref) :
    ((vector_step k rank ref s).heap r).bm25_rank = (s.heap r).bm25_rank ∧
    ((vector_step k rank ref s).heap r).bm25_score = (s.heap r).bm25_score := by
  rw [vector_step_heap_shape]
  show ((hupd _ _ _) r).bm25_rank = _ ∧ ((hupd _ _ _) r).bm25_score = _
  unfold hupd
  have hheap0 : ∀ (t : Nat), t ≠ ref →
      ((if (alookup s.rrf_scores ((s.heap ref).place_id)).isSome then s.heap
        else fun i => if i = ref then setBM25Null (s.heap ref) else s.heap i) t)
        = s.heap t := by
    intro t hT
    by_cases hin : (alookup s.rrf_scores ((s.heap ref).place_id)).isSome
    · rw [if_pos hin]
    · rw [if_neg hin, if_neg hT]
  have hsvr : ∀ (d : Doc) (a : Nat) (bq : ℚ), (setVec d a bq).bm25_rank = d.bm25_rank :=
    fun _ _ _ => rfl
  have hsvs : ∀ (d : Doc) (a : Nat) (bq : ℚ), (setVec d a bq).bm25_score = d.bm25_score :=
    fun _ _ _ => rfl
  by_cases hr : r = (alookup (accStep k rank ((s.heap ref).place_id) ref s.rrf_scores
      s.all_docs).2 ((s.heap ref).place_id)).getD 0
  · rw [if_pos hr, hsvr, hsvs, ← hr, hheap0 r hne]
    exact ⟨rfl, rfl⟩
  · rw [if_neg hr, hheap0 r hne]
    exact ⟨rfl, rfl⟩

theorem vector_step_fresh_self (k : ℚ) (rank ref : Nat) (s : RRFState)
    (hkeys : akeys s.rrf_scores = akeys s.all_docs)
    (hfresh : alookup s.rrf_scores ((s.heap ref).place_id) = none) :
    (vector_step k rank ref s).heap ref =
      setVec (setBM25Null (s.heap ref)) rank ((s.heap ref).score) := by
  have hin : ¬ (alookup s.rrf_scores ((s.heap ref).place_id)).isSome = true := by
    rw [hfresh]; simp
  have htref : (alookup (accStep k rank ((s.heap ref).place_id) ref s.rrf_scores
      s.all_docs).2 ((s.heap ref).place_id)).getD 0 = ref := by
    rw [accStep_tref_of_fresh k rank _ ref _ _ hkeys hfresh]
    rfl
  rw [vector_step_heap_shape]
  show (hupd _ _ _) ref = _
  unfold hupd
  rw [htref, if_pos rfl, if_neg hin, if_pos rfl]

theorem bm25_step_heap_shape (k : ℚ) (rank ref : Nat) (s : RRFState) :
    (bm25_step k rank ref s).heap =
      (let place_id := (s.heap ref).place_id
      let tref := (alookup (accStep k rank place_id ref s.rrf_scores s.all_docs).2
        place_id).getD 0
      hupd s.heap tref (setBM25 (s.heap tref) rank ((s.heap ref).score))) := rfl

theorem bm25_step_untouched (k : ℚ) (rank ref : Nat) (s : RRFState) (r : Nat)
    (hne : r ≠ ref) (hkeys : akeys s.rrf_scores = akeys s.all_docs)
    (hdocs : ∀ t, alookup s.all_docs ((s.heap ref).place_id) = some t → t ≠ r) :
    (bm25_step k rank ref s).heap r = s.heap r := by
  have htref : (alookup (accStep k rank ((s.heap ref).place_id) ref s.rrf_scores
      s.all_docs).2 ((s.heap ref).place_id)).getD 0 ≠ r := by
    by_cases hin : (alookup s.rrf_scores ((s.heap ref).place_id)).isSome
    · have hin' : ((s.heap ref).place_id) ∈ akeys s.all_docs :=
        hkeys ▸ alookup_isSome_iff.mp hin
      obtain ⟨t, ht⟩ := Option.isSome_iff_exists.mp (alookup_isSome_iff.mpr hin')
      rw [accStep_tref_of_present k rank _ ref _ _ hin, ht]
      exact fun hc => (hdocs t ht) hc
    · have hfresh : alookup s.rrf_scores ((s.heap ref).place_id) = none := by
        cases hsc : alookup s.rrf_scores ((s.heap ref).place_id) with
        | none => rfl
        | some w => rw [hsc] at hin; simp at hin
      rw [accStep_tref_of_fresh k rank _ ref _ _ hkeys hfresh]
      simp only [Option.getD_some]
      exact fun hc => hne hc.symm
  rw [bm25_step_heap_shape]
  show (hupd _ _ _) r = s.heap r
  unfold hupd
  rw [if_neg (fun hc => htref hc.symm)]

theorem bm25_step_fresh_self (k : ℚ) (rank ref : Nat) (s : RRFState)
    (hkeys : akeys s.rrf_scores = akeys s.all_docs)
    (hfresh : alookup s.rrf_scores ((s.heap ref).place_id) = none) :
    (bm25_step k rank ref s).heap ref =
      setBM25 (s.heap ref) rank ((s.heap ref).score) := by
  have htref : (alookup (accStep k rank ((s.heap ref).place_id) ref s.rrf_scores
      s.all_docs).2 ((s.heap ref).place_id)).getD 0 = ref := by
    rw [accStep_tref_of_fresh k rank _ ref _ _ hkeys hfresh]
    rfl
  rw [bm25_step_heap_shape]
  show (hupd _ _ _) ref = _
  unfold hupd
  rw [htref, if_pos rfl]

theorem step_keys_eq_vector (k : ℚ) (rank ref : Nat) (s : RRFState)
    (hkeys : akeys s.rrf_scores = akeys s.all_docs) :
    akeys (vector_step k rank ref s).rrf_scores =
      akeys (vector_step k rank ref s).all_docs :=
  accStep_keys_eq k rank ((s.heap ref).place_id) ref s.rrf_scores s.all_docs hkeys

theorem step_keys_eq_bm25 (k : ℚ) (rank ref : Nat) (s : RRFState)
    (hkeys : akeys s.rrf_scores = akeys s.all_docs) :
    akeys (bm25_step k rank ref s).rrf_scores =
      akeys (bm25_step k rank ref s).all_docs :=
  accStep_keys_eq k rank ((s.heap ref).place_id) ref s.rrf_scores s.all_docs hkeys

theorem vector_phase_untouched (k : ℚ) (refs : List Nat) :
    ∀ (rank : Nat) (s : RRFState) (r : Nat),
    r ∉ refs →
    akeys s.rrf_scores = akeys s.all_docs →
    (∀ pid ∈ refs.map (fun t => (s.heap t).place_id),
      ∀ t, alookup s.all_docs pid = some t → t ≠ r) →
    (vector_phase k rank refs s).heap r = s.heap r := by
  induction refs with
  | nil => intro rank s r _ _ _; rfl
  | cons ref rest ih =>
    intro rank s r hr hkeys hdocs
    rw [vector_phase_cons]
    have hne : r ≠ ref := fun hc => hr (hc ▸ List.mem_cons_self _ _)
    have hstep := vector_step_untouched k rank ref s r hne hkeys
      (hdocs _ (by simp))
    have hkeys1 := step_keys_eq_vector k rank ref s hkeys
    have hdocs1 : ∀ pid ∈ rest.map
        (fun t => ((vector_step k rank ref s).heap t).place_id),
        ∀ t, alookup (vector_step k rank ref s).all_docs pid = some t → t ≠ r := by
      intro pid hpid t ht
      have hpid' : pid ∈ rest.map (fun t => (s.heap t).place_id) := by
        rwa [List.map_congr_left
          (fun x _ => (vector_step_heap_pidscore k rank ref s x).1)] at hpid
      have hd : (vector_step k rank ref s).all_docs =
          (accStep k rank ((s.heap ref).place_id) ref s.rrf_scores s.all_docs).2 := rfl
      rw [hd, accStep_snd] at ht
      by_cases hin : (alookup s.rrf_scores ((s.heap ref).place_id)).isSome
      · rw [if_pos hin] at ht
        exact hdocs pid (by simp [hpid']) t ht
      · rw [if_neg hin] at ht
        rcases alookup_append_single_cases ht with hold | ⟨_, htt, _⟩
        · exact hdocs pid (by simp [hpid']) t hold
        · subst htt
          exact fun hc => hr (hc ▸ List.mem_cons_self _ _)
    calc (vector_phase k (rank + 1) rest (vector_step k rank ref s)).heap r
        = (vector_step k rank ref s).heap r :=
          ih (rank + 1) _ r (fun hc => hr (List.mem_cons_of_mem _ hc)) hkeys1 hdocs1
      _ = s.heap r := hstep

theorem bm25_phase_untouched (k : ℚ) (refs : List Nat) :
    ∀ (rank : Nat) (s : RRFState) (r : Nat),
    r ∉ refs →
    akeys s.rrf_scores = akeys s.all_docs →
    (∀ pid ∈ refs.map (fun t => (s.heap t).place_id),
      ∀ t, alookup s.all_docs pid = some t → t ≠ r) →
    (bm25_phase k rank refs s).heap r = s.heap r := by
  induction refs with
  | nil => intro rank s r _ _ _; rfl
  | cons ref rest ih =>
    intro rank s r hr hkeys hdocs
    rw [bm25_phase_cons]
    have hne : r ≠ ref := fun hc => hr (hc ▸ List.mem_cons_self _ _)
    have hstep := bm25_step_untouched k rank ref s r hne hkeys
      (hdocs _ (by simp))
    have hkeys1 := step_keys_eq_bm25 k rank ref s hkeys
    have hdocs1 : ∀ pid ∈ rest.map
        (fun t => ((bm25_step k rank ref s).heap t).place_id),
        ∀ t, alookup (bm25_step k rank ref s).all_docs pid = some t → t ≠ r := by
      intro pid hpid t ht
      have hpid' : pid ∈ rest.map (fun t => (s.heap t).place_id) := by
        rwa [List.map_congr_left
          (fun x _ => (bm25_step_heap_pidscore k rank ref s x).1)] at hpid
      have hd : (bm25_step k rank ref s).all_docs =
          (accStep k rank ((s.heap ref).place_id) ref s.rrf_scores s.all_docs).2 := rfl
      rw [hd, accStep_snd] at ht
      by_cases hin : (alookup s.rrf_scores ((s.heap ref).place_id)).isSome
      · rw [if_pos hin] at ht
        exact hdocs pid (by simp [hpid']) t ht
      · rw [if_neg hin] at ht
        rcases alookup_append_single_cases ht with hold | ⟨_, htt, _⟩
        · exact hdocs pid (by simp [hpid']) t hold
        · subst htt
          exact fun hc => hr (hc ▸ List.mem_cons_self _ _)
    calc (bm25_phase k (rank + 1) rest (bm25_step k rank ref s)).heap r
        = (bm25_step k rank ref s).heap r :=
          ih (rank + 1) _ r (fun hc => hr (List.mem_cons_of_mem _ hc)) hkeys1 hdocs1
      _ = s.heap r := hstep

theorem vector_phase_vonly (k : ℚ) (refs : List Nat) :
    ∀ (rank : Nat) (s : RRFState),
    refs.Nodup →
    (refs.map fun t => (s.heap t).place_id).Nodup →
    akeys s.rrf_scores = akeys s.all_docs →
    (∀ p t, alookup s.all_docs p = some t → t ∉ refs) →
    ∀ j (hj : j < refs.length),
      alookup s.rrf_scores ((s.heap (refs.get ⟨j, hj⟩)).place_id) = none →
      (vector_phase k rank refs s).heap (refs.get ⟨j, hj⟩) =
        setVec (setBM25Null (s.heap (refs.get ⟨j, hj⟩))) (rank + j)
          ((s.heap (refs.get ⟨j, hj⟩)).score) := by
  induction refs with
  | nil => intro rank s _ _ _ _ j hj; exact absurd hj (by simp)
  | cons ref rest ih =>
    intro rank s hnd hpnd hkeys hrange j hj hfresh
    rw [List.nodup_cons] at hnd
    rw [List.map_cons, List.nodup_cons] at hpnd
    rw [vector_phase_cons]
    cases j with
    | zero =>
      have hget : (ref :: rest).get ⟨0, hj⟩ = ref := rfl
      rw [hget] at hfresh ⊢
      have hself := vector_step_fresh_self k rank ref s hkeys hfresh
      have hkeys1 := step_keys_eq_vector k rank ref s hkeys
      have hdocs1 : ∀ pid ∈ rest.map
          (fun t => ((vector_step k rank ref s).heap t).place_id),
          ∀ t, alookup (vector_step k rank ref s).all_docs pid = some t →
            t ≠ ref := by
        intro pid hpid t ht
        have hpid' : pid ∈ rest.map (fun t => (s.heap t).place_id) := by
          rwa [List.map_congr_left
            (fun x _ => (vector_step_heap_pidscore k rank ref s x).1)] at hpid
        have hd : (vector_step k rank ref s).all_docs =
            (accStep k rank ((s.heap ref).place_id) ref s.rrf_scores s.all_docs).2 :=
          rfl
        rw [hd, accStep_snd] at ht
        rw [if_neg (by rw [hfresh]; simp)] at ht
        rcases alookup_append_single_cases ht with hold | ⟨hpp, _, _⟩
        · intro hc
          exact (hrange pid t hold) (hc ▸ List.mem_cons_self _ _)
        · exact absurd (hpp ▸ hpid') hpnd.1
      have huntouched := vector_phase_untouched k rest (rank + 1)
        (vector_step k rank ref s) ref hnd.1 hkeys1 hdocs1
      rw [huntouched, hself, Nat.add_zero]
    | succ j' =>
      have hj' : j' < rest.length := by simpa using hj
      have hget : (ref :: rest).get ⟨j' + 1, hj⟩ = rest.get ⟨j', hj'⟩ := rfl
      rw [hget] at hfresh ⊢
      have hXmem : rest.get ⟨j', hj'⟩ ∈ rest := List.get_mem _ _ _
      have hXne : rest.get ⟨j', hj'⟩ ≠ ref := fun hc => hnd.1 (hc ▸ hXmem)
      have hstepX : (vector_step k rank ref s).heap (rest.get ⟨j', hj'⟩) =
          s.heap (rest.get ⟨j', hj'⟩) := by
        refine vector_step_untouched k rank ref s _ hXne hkeys ?_
        intro t ht hc
        exact (hrange _ t ht) (hc ▸ List.mem_cons_of_mem _ hXmem)
      have hpid_pres : ((vector_step k rank ref s).heap
          (rest.get ⟨j', hj'⟩)).place_id = (s.heap (rest.get ⟨j', hj'⟩)).place_id :=
        (vector_step_heap_pidscore k rank ref s _).1
      have hpnd1 : (rest.map
          (fun t => ((vector_step k rank ref s).heap t).place_id)).Nodup := by
        rw [List.map_congr_left
          (fun x _ => (vector_step_heap_pidscore k rank ref s x).1)]
        exact hpnd.2
      have hkeys1 := step_keys_eq_vector k rank ref s hkeys
      have hrange1 : ∀ p t,
          alookup (vector_step k rank ref s).all_docs p = some t → t ∉ rest := by
        intro p t ht
        have hd : (vector_step k rank ref s).all_docs =
            (accStep k rank ((s.heap ref).place_id) ref s.rrf_scores s.all_docs).2 :=
          rfl
        rw [hd, accStep_snd] at ht
        by_cases hin : (alookup s.rrf_scores ((s.heap ref).place_id)).isSome
        · rw [if_pos hin] at ht
          exact fun hc => (hrange p t ht) (List.mem_cons_of_mem _ hc)
        · rw [if_neg hin] at ht
          rcases alookup_append_single_cases ht with hold | ⟨_, htt, _⟩
          · exact fun hc => (hrange p t hold) (List.mem_cons_of_mem _ hc)
          · subst htt
            exact hnd.1
      have hfresh1 : alookup (vector_step k rank ref s).rrf_scores
          (((vector_step k rank ref s).heap (rest.get ⟨j', hj'⟩)).place_id) =
          none := by
        rw [hpid_pres]
        have hs : (vector_step k rank ref s).rrf_scores =
            (accStep k rank ((s.heap ref).place_id) ref s.rrf_scores s.all_docs).1 :=
          rfl
        rw [hs, accStep_fst_lookup]
        have hXpid_mem : (s.heap (rest.get ⟨j', hj'⟩)).place_id ∈
            rest.map (fun t => (s.heap t).place_id) :=
          List.mem_map.mpr ⟨_, hXmem, rfl⟩
        have hne2 : ¬ ((s.heap (rest.get ⟨j', hj'⟩)).place_id =
            (s.heap ref).place_id) := fun hc => hpnd.1 (hc ▸ hXpid_mem)
        rw [if_neg hne2]
        exact hfresh
      have hres := ih (rank + 1) (vector_step k rank ref s) hnd.2 hpnd1 hkeys1
        hrange1 j' hj' hfresh1
      rw [hres, hstepX]
      have harith : rank + 1 + j' = rank + (j' + 1) := by omega
      rw [harith]

theorem bm25_phase_closed (k : ℚ) (refs : List Nat) :
    ∀ (rank : Nat) (s : RRFState),
    refs.Nodup →
    (refs.map fun t => (s.heap t).place_id).Nodup →
    akeys s.rrf_scores = akeys s.all_docs →
    (∀ p t, alookup s.all_docs p = some t → t ∉ refs) →
    ∀ j (hj : j < refs.length),
      alookup s.rrf_scores ((s.heap (refs.get ⟨j, hj⟩)).place_id) = none →
      (bm25_phase k rank refs s).heap (refs.get ⟨j, hj⟩) =
        setBM25 (s.heap (refs.get ⟨j, hj⟩)) (rank + j)
          ((s.heap (refs.get ⟨j, hj⟩)).score) := by
  induction refs with
  | nil => intro rank s _ _ _ _ j hj; exact absurd hj (by simp)
  | cons ref rest ih =>
    intro rank s hnd hpnd hkeys hrange j hj hfresh
    rw [List.nodup_cons] at hnd
    rw [List.map_cons, List.nodup_cons] at hpnd
    rw [bm25_phase_cons]
    cases j with
    | zero =>
      have hget : (ref :: rest).get ⟨0, hj⟩ = ref := rfl
      rw [hget] at hfresh ⊢
      have hself := bm25_step_fresh_self k rank ref s hkeys hfresh
      have hkeys1 := step_keys_eq_bm25 k rank ref s hkeys
      have hdocs1 : ∀ pid ∈ rest.map
          (fun t => ((bm25_step k rank ref s).heap t).place_id),
          ∀ t, alookup (bm25_step k rank ref s).all_docs pid = some t →
            t ≠ ref := by
        intro pid hpid t ht
        have hpid' : pid ∈ rest.map (fun t => (s.heap t).place_id) := by
          rwa [List.map_congr_left
            (fun x _ => (bm25_step_heap_pidscore k rank ref s x).1)] at hpid
        have hd : (bm25_step k rank ref s).all_docs =
            (accStep k rank ((s.heap ref).place_id) ref s.rrf_scores s.all_docs).2 :=
          rfl
        rw [hd, accStep_snd] at ht
        rw [if_neg (by rw [hfresh]; simp)] at ht
        rcases alookup_append_single_cases ht with hold | ⟨hpp, _, _⟩
        · intro hc
          exact (hrange pid t hold) (hc ▸ List.mem_cons_self _ _)
        · exact absurd (hpp ▸ hpid') hpnd.1
      have huntouched := bm25_phase_untouched k rest (rank + 1)
        (bm25_step k rank ref s) ref hnd.1 hkeys1 hdocs1
      rw [huntouched, hself, Nat.add_zero]
    | succ j' =>
      have hj' : j' < rest.length := by simpa using hj
      have hget : (ref :: rest).get ⟨j' + 1, hj⟩ = rest.get ⟨j', hj'⟩ := rfl
      rw [hget] at hfresh ⊢
      have hXmem : rest.get ⟨j', hj'⟩ ∈ rest := List.get_mem _ _ _
      have hXne : rest.get ⟨j', hj'⟩ ≠ ref := fun hc => hnd.1 (hc ▸ hXmem)
      have hstepX : (bm25_step k rank ref s).heap (rest.get ⟨j', hj'⟩) =
          s.heap (rest.get ⟨j', hj'⟩) := by
        refine bm25_step_untouched k rank ref s _ hXne hkeys ?_
        intro t ht hc
        exact (hrange _ t ht) (hc ▸ List.mem_cons_of_mem _ hXmem)
      have hpid_pres : ((bm25_step k rank ref s).heap
          (rest.get ⟨j', hj'⟩)).place_id = (s.heap (rest.get ⟨j', hj'⟩)).place_id :=
        (bm25_step_heap_pidscore k rank ref s _).1
      have hpnd1 : (rest.map
          (fun t => ((bm25_step k rank ref s).heap t).place_id)).Nodup := by
        rw [List.map_congr_left
          (fun x _ => (bm25_step_heap_pidscore k rank ref s x).1)]
        exact hpnd.2
      have hkeys1 := step_keys_eq_bm25 k rank ref s hkeys
      have hrange1 : ∀ p t,
          alookup (bm25_step k rank ref s).all_docs p = some t → t ∉ rest := by
        intro p t ht
        have hd : (bm25_step k rank ref s).all_docs =
            (accStep k rank ((s.heap ref).place_id) ref s.rrf_scores s.all_docs).2 :=
          rfl
        rw [hd, accStep_snd] at ht
        by_cases hin : (alookup s.rrf_scores ((s.heap ref).place_id)).isSome
        · rw [if_pos hin] at ht
          exact fun hc => (hrange p t ht) (List.mem_cons_of_mem _ hc)
        · rw [if_neg hin] at ht
          rcases alookup_append_single_cases ht with hold | ⟨_, htt, _⟩
          · exact fun hc => (hrange p t hold) (List.mem_cons_of_mem _ hc)
          · subst htt
            exact hnd.1
      have hfresh1 : alookup (bm25_step k rank ref s).rrf_scores
          (((bm25_step k rank ref s).heap (rest.get ⟨j', hj'⟩)).place_id) =
          none := by
        rw [hpid_pres]
        have hs : (bm25_step k rank ref s).rrf_scores =
            (accStep k rank ((s.heap ref).place_id) ref s.rrf_scores s.all_docs).1 :=
          rfl
        rw [hs, accStep_fst_lookup]
        have hXpid_mem : (s.heap (rest.get ⟨j', hj'⟩)).place_id ∈
            rest.map (fun t => (s.heap t).place_id) :=
          List.mem_map.mpr ⟨_, hXmem, rfl⟩
        have hne2 : ¬ ((s.heap (rest.get ⟨j', hj'⟩)).place_id =
            (s.heap ref).place_id) := fun hc => hpnd.1 (hc ▸ hXpid_mem)
        rw [if_neg hne2]
        exact hfresh
      have hres := ih (rank + 1) (bm25_step k rank ref s) hnd.2 hpnd1 hkeys1
        hrange1 j' hj' hfresh1
      rw [hres, hstepX]
      have harith : rank + 1 + j' = rank + (j' + 1) := by omega
      rw [harith]

theorem vector_phase_bm25_fields (k : ℚ) (refs : List Nat) :
    ∀ (rank : Nat) (s : RRFState) (r : Nat), r ∉ refs →
    ((vector_phase k rank refs s).heap r).bm25_rank = (s.heap r).bm25_rank ∧
    ((vector_phase k rank refs s).heap r).bm25_score = (s.heap r).bm25_score := by
  induction refs with
  | nil => intro rank s r _; exact ⟨rfl, rfl⟩
  | cons ref rest ih =>
    intro rank s r hr
    rw [vector_phase_cons]
    have hne : r ≠ ref := fun hc => hr (hc ▸ List.mem_cons_self _ _)
    have h1 := ih (rank + 1) (vector_step k rank ref s) r
      (fun hc => hr (List.mem_cons_of_mem _ hc))
    have h2 := vector_step_bm25_fields k rank ref s r hne
    exact ⟨h1.1.trans h2.1, h1.2.trans h2.2⟩

theorem b_refs_pids (b v : List Doc) :
    (b_refs b).map (fun t => (layout_heap b v t).place_id) = b.map Doc.place_id := by
  have h := b_pairs_fst b v
  rw [List.map_map] at h
  exact h

theorem v_refs_pids (b v : List Doc) (h : Nat → Doc)
    (hpres : ∀ r, (h r).place_id = (layout_heap b v r).place_id) :
    (v_refs b v).map (fun t => (h t).place_id) = v.map Doc.place_id := by
  have h2 := v_pairs_fst b v h hpres
  rw [List.map_map] at h2
  exact h2

theorem v_refs_nodup (b v : List Doc) : (v_refs b v).Nodup :=
  (List.nodup_range _).map (fun _ _ h => by omega)

theorem mem_v_refs_ge (b v : List Doc) (t : Nat) (ht : t ∈ v_refs b v) :
    b.length ≤ t := by
  obtain ⟨j, _, hj2⟩ := List.mem_map.mp ht
  omega

theorem s1_keys (b v : List Doc) (k : ℚ) (hb : (b.map Doc.place_id).Nodup) :
    akeys (bm25_phase k 1 (b_refs b)
      ⟨layout_heap b v, [], []⟩).rrf_scores = b.map Doc.place_id := by
  have hpairs1 := b_pairs_fst b v
  have h1 : (bm25_phase k 1 (b_refs b) ⟨layout_heap b v, [], []⟩).rrf_scores =
      (accFold k 1 ((b_refs b).map (fun r => ((layout_heap b v r).place_id, r)))
        ([], [])).1 :=
    (bm25_phase_acc k (b_refs b) 1 ⟨layout_heap b v, [], []⟩).1
  rw [h1, accFold_fst_keys k _ 1 _ (by rw [hpairs1]; exact hb), hpairs1]
  simp [akeys, alookup]

theorem s1_docs (b v : List Doc) (k : ℚ) (hb : (b.map Doc.place_id).Nodup) :
    (bm25_phase k 1 (b_refs b) ⟨layout_heap b v, [], []⟩).all_docs =
      (b_refs b).map (fun r => ((layout_heap b v r).place_id, r)) := by
  have hpairs1 := b_pairs_fst b v
  have h1 : (bm25_phase k 1 (b_refs b) ⟨layout_heap b v, [], []⟩).all_docs =
      (accFold k 1 ((b_refs b).map (fun r => ((layout_heap b v r).place_id, r)))
        ([], [])).2 :=
    (bm25_phase_acc k (b_refs b) 1 ⟨layout_heap b v, [], []⟩).2
  rw [h1, accFold_snd_all_fresh k _ 1 (([], []) : List (Nat × ℚ) × List (Nat × Nat))
    (by rw [hpairs1]; exact hb) (fun p _ => rfl)]
  rfl

/-- **C10** (in-place mutation): after `reciprocal_rank_fusion(b, v, 60)`
with duplicate-free channel lists, every keyword-list document object (at
heap reference `i < |b|`) has had `bm25_rank = i+1` and `bm25_score` (its
own `_score`) written into it, and every vector-only document object (at
heap reference `|b| + j`) has had `bm25_rank = None`, `bm25_score = None`,
`vector_rank = j+1` and `vector_score` written into it: the function
mutates its input documents. -/
theorem C10_in_place_mutation (b v : List Doc)
    (hb : (b.map Doc.place_id).Nodup) (hv : (v.map Doc.place_id).Nodup) :
    (∀ i (hi : i < b.length),
      ((rrf_run b v 60).1 i).bm25_rank = FieldVal.val (i + 1) ∧
      ((rrf_run b v 60).1 i).bm25_score = FieldVal.val ((b.get ⟨i, hi⟩).score)) ∧
    (∀ j (hj : j < v.length),
      (v.get ⟨j, hj⟩).place_id ∉ b.map Doc.place_id →
      ((rrf_run b v 60).1 (b.length + j)).bm25_rank = FieldVal.null ∧
      ((rrf_run b v 60).1 (b.length + j)).bm25_score = FieldVal.null ∧
      ((rrf_run b v 60).1 (b.length + j)).vector_rank = FieldVal.val (j + 1) ∧
      ((rrf_run b v 60).1 (b.length + j)).vector_score =
        FieldVal.val ((v.get ⟨j, hj⟩).score)) := by
  have hrun1 : (rrf_run b v 60).1 =
      (vector_phase 60 1 (v_refs b v)
        (bm25_phase 60 1 (b_refs b) ⟨layout_heap b v, [], []⟩)).heap := rfl
  set s1 := bm25_phase 60 1 (b_refs b) ⟨layout_heap b v, [], []⟩ with hs1
  have hbrefs_nd : (b_refs b).Nodup := List.nodup_range _
  have hbpids : (b_refs b).map
      (fun t => ((⟨layout_heap b v, [], []⟩ : RRFState).heap t).place_id) =
      b.map Doc.place_id := b_refs_pids b v
  have hkeys1 : akeys s1.rrf_scores = akeys s1.all_docs := by
    have h1 := (bm25_phase_acc 60 (b_refs b) 1 ⟨layout_heap b v, [], []⟩).1
    have h2 := (bm25_phase_acc 60 (b_refs b) 1 ⟨layout_heap b v, [], []⟩).2
    rw [hs1, h1, h2]
    exact accFold_keys_eq 60 _ 1 _ rfl
  constructor
  · -- keyword documents
    intro i hi
    have hi' : i < (b_refs b).length := by simpa [b_refs] using hi
    have hgetref : (b_refs b).get ⟨i, hi'⟩ = i := by
      rw [List.get_eq_getElem]
      exact List.getElem_range _ _
    have h1 := bm25_phase_closed 60 (b_refs b) 1 ⟨layout_heap b v, [], []⟩
      hbrefs_nd (by rw [hbpids]; exact hb) rfl
      (by intro p t ht; simp [alookup] at ht) i hi'
      (by rfl)
    rw [hgetref] at h1
    have hlay : layout_heap b v i = b.get ⟨i, hi⟩ := by
      rw [layout_heap_b b v i hi, List.get_eq_getElem]
    have hin_vrefs : i ∉ v_refs b v := fun hc => by
      have := mem_v_refs_ge b v i hc
      omega
    have h2 := vector_phase_bm25_fields 60 (v_refs b v) 1 s1 i hin_vrefs
    rw [hrun1]
    constructor
    · rw [h2.1]
      rw [← hs1] at h1
      rw [h1]
      simp [setBM25, Nat.add_comm]
    · rw [h2.2]
      rw [← hs1] at h1
      rw [h1]
      simp only [setBM25]
      rw [hlay]
  · -- vector-only documents
    intro j hj hnotin
    have hvrefs_nd := v_refs_nodup b v
    have hpres : ∀ r, (s1.heap r).place_id =
        ((⟨layout_heap b v, [], []⟩ : RRFState).heap r).place_id := fun r =>
      (bm25_phase_heap_pidscore 60 (b_refs b) 1 ⟨layout_heap b v, [], []⟩ r).1
    have hvpids1 : (v_refs b v).map (fun t => (s1.heap t).place_id) =
        v.map Doc.place_id := v_refs_pids b v s1.heap hpres
    have hdocs1 : ∀ p t, alookup s1.all_docs p = some t → t ∉ v_refs b v := by
      intro p t ht hc
      rw [hs1, s1_docs b v 60 hb] at ht
      obtain ⟨r, hr, heq⟩ := List.mem_map.mp (alookup_mem ht)
      have htr : t = r := by
        have := congrArg Prod.snd heq
        simpa using this.symm
      have hrlt : r < b.length := by
        rw [b_refs, List.mem_range] at hr
        exact hr
      have := mem_v_refs_ge b v t hc
      omega
    have hj' : j < (v_refs b v).length := by simpa [v_refs] using hj
    have hgetref : (v_refs b v).get ⟨j, hj'⟩ = b.length + j := by
      rw [List.get_eq_getElem]
      simp [v_refs]
    have hlay : (⟨layout_heap b v, [], []⟩ : RRFState).heap (b.length + j) =
        v.get ⟨j, hj⟩ := by
      show layout_heap b v (b.length + j) = _
      rw [layout_heap_v b v j hj, List.get_eq_getElem]
    have huntouched : s1.heap (b.length + j) = v.get ⟨j, hj⟩ := by
      rw [hs1]
      rw [bm25_phase_untouched 60 (b_refs b) 1 ⟨layout_heap b v, [], []⟩
        (b.length + j)
        (by intro hc; rw [b_refs, List.mem_range] at hc; omega)
        rfl
        (by intro p _ t ht; simp [alookup] at ht)]
      exact hlay
    have hfresh : alookup s1.rrf_scores
        ((s1.heap ((v_refs b v).get ⟨j, hj'⟩)).place_id) = none := by
      rw [hgetref]
      have hpid : (s1.heap (b.length + j)).place_id = (v.get ⟨j, hj⟩).place_id := by
        rw [huntouched]
      rw [hpid]
      rw [alookup_eq_none_iff, hs1, s1_keys b v 60 hb]
      exact hnotin
    have h1 := vector_phase_vonly 60 (v_refs b v) 1 s1 hvrefs_nd
      (by rw [hvpids1]; exact hv) hkeys1 hdocs1 j hj' hfresh
    rw [hgetref] at h1
    rw [hrun1, h1, huntouched]
    refine ⟨rfl, rfl, ?_, rfl⟩
    simp [setVec, Nat.add_comm]

/-- Witness for C10 at a concrete input: the keyword document at reference
0 receives `bm25_rank = 1`, and the vector-only document (id 3, at
reference `|exB| + 1 = 3`) receives `bm25_rank = None` and
`vector_rank = 2`. -/
theorem C10_in_place_mutation_witness :
    ((exB.map Doc.place_id).Nodup ∧ (exV.map Doc.place_id).Nodup) ∧
    ((rrf_run exB exV 60).1 0).bm25_rank = FieldVal.val 1 ∧
    ((rrf_run exB exV 60).1 3).bm25_rank = FieldVal.null ∧
    ((rrf_run exB exV 60).1 3).vector_rank = FieldVal.val 2 :=
  ⟨⟨by decide, by decide⟩,
    ((C10_in_place_mutation exB exV (by decide) (by decide)).1 0 (by decide)).1,
    ((C10_in_place_mutation exB exV (by decide) (by decide)).2 1 (by decide)
      (by decide)).1,
    ((C10_in_place_mutation exB exV (by decide) (by decide)).2 1 (by decide)
      (by decide)).2.2.1⟩

end RestaurantSearch
